import Mathlib

/-!
# Verification of the runzod rewrite engine (runtypes → zod codemod)

This development gives a shallow embedding of the rewrite engine found in
`src/src/transform.ts` (the pipeline `transformer` built from
`processImports`, `markJsBuiltins`, `transformStandaloneTypeIdentifiers`,
`transformTypeCallExpressions`, `transformMethodCalls`,
`transformNamespaceImports`, `transformValidationMethods`, `addZodImport`),
together with the `Record` dispatch of the variant transformer
(`transformRuntypeToZod` with its helpers `transformArgument` and
`processObjectProperties`).

Modelling notes, matching the jscodeshift source:

* The syntax tree is the fragment of ESTree the engine inspects:
  identifiers, literals, call expressions, (non-computed) member
  expressions, object and array literals, arrow functions with expression
  bodies, and logical expressions.  TypeScript type annotations
  (`TSTypeReference`, used only by `transformStaticToInfer` and
  `transformNamespaceStaticTypes`) are not part of the expression
  language the remaining passes touch and are not modelled; none of the
  claims concerns them.
* The source marks nodes by assigning a `__jsBuiltin` attribute.  We keep
  a boolean mark on every identifier for this.
* jscodeshift's `find(...).forEach(...)` collects all matching paths up
  front (in pre-order) and then mutates.  In-place mutations (assigning
  `callee`, a property's `value`, or a member's `property`) act on node
  objects that are shared with the final tree, so they always take
  effect.  A `replaceWith` acts through the collected path's parent
  container; when an enclosing node was itself rebuilt with *fresh*
  containers (e.g. `j.arrayExpression(args.map ...)`), the stale
  `replaceWith` mutates a detached container and has no effect, while a
  rebuilt node that *reuses* the original container object (e.g.
  `j.callExpression(callee, callExpr.arguments)` or reusing the original
  `ObjectExpression`) keeps the positions live.  The recursive functions
  below carry a `live` flag recording whether the current node's
  container is still reachable from the root, and each branch passes the
  flag to reused children exactly according to whether the source
  rebuilds the container or reuses it.
-/

set_option maxHeartbeats 1000000
set_option linter.unreachableTactic false
set_option linter.unusedTactic false
set_option linter.unnecessarySeqFocus false

namespace Runzod

/-- An identifier node.  `mark` models the `__jsBuiltin` attribute that
`markJsBuiltins` assigns to nodes (absent on a fresh parse). -/
structure Ident where
  name : String
  mark : Bool
deriving DecidableEq, Repr

mutual

/-- Expression nodes of the syntax tree fragment the engine inspects. -/
inductive Expr where
  | evar (i : Ident)
  | str (s : String)
  | num (n : Int)
  | boolL (b : Bool)
  | call (callee : Expr) (args : ExprList)
  | member (obj : Expr) (prop : Ident)
  | objectE (props : PropList)
  | arrayE (elems : ExprList)
  | arrow (params : List String) (body : Expr)
  | logical (op : String) (l r : Expr)
deriving DecidableEq, Repr

/-- Argument / element lists (the `arguments` and `elements` arrays). -/
inductive ExprList where
  | nil
  | cons (e : Expr) (rest : ExprList)
deriving DecidableEq, Repr

/-- Object-literal properties (`Property` nodes with identifier keys). -/
inductive PropList where
  | nil
  | cons (key : String) (value : Expr) (rest : PropList)
deriving DecidableEq, Repr

end

/-- An import specifier. -/
inductive ImportSpec where
  | named (imported : String) (localName : String)
  | star (localName : String)
  | defaultSpec (localName : String)
deriving DecidableEq, Repr

mutual

/-- Statements: import declarations and the expression-bearing statement
forms exercised by the engine. -/
inductive Stmt where
  | importDecl (specs : List ImportSpec) (source : String)
  | exprStmt (e : Expr)
  | varDecl (name : String) (init : Expr)
  | ifStmt (test : Expr) (thenB elseB : StmtList)
  | returnStmt (e : Expr)
deriving DecidableEq, Repr

/-- A list of statements (a program body or block). -/
inductive StmtList where
  | nil
  | cons (s : Stmt) (rest : StmtList)
deriving DecidableEq, Repr

end

/-- Shorthand for building an `ExprList` from a `List Expr`. -/
def elist : List Expr → ExprList
  | [] => .nil
  | e :: es => .cons e (elist es)

/-- Shorthand for building a `StmtList` from a `List Stmt`. -/
def slist : List Stmt → StmtList
  | [] => .nil
  | s :: ss => .cons s (slist ss)

/-- An unmarked identifier expression, as produced by a fresh parse. -/
def idE (s : String) : Expr := .evar ⟨s, false⟩

/-! ## Static tables (`typeMapping`, `methodMapping`, builtin names) -/

/-- The builtin names used by `markJsBuiltins` and `shouldSkipIdentifier`:
`["Boolean", "String", "Number", "Symbol"]`. -/
def jsBuiltinNames : List String := ["Boolean", "String", "Number", "Symbol"]

/-- The `typeMapping` table of `src/src/transform.ts` (runtypes name →
zod expression string); `none` for names that are not keys. -/
def typeMapping : String → Option String
  | "String" => some ("z.string()")
  | "Number" => some ("z.number()")
  | "Boolean" => some ("z.boolean()")
  | "BigInt" => some ("z.bigint()")
  | "Array" => some ("z.array")
  | "Tuple" => some ("z.tuple")
  | "Record" => some ("z.object")
  | "Object" => some ("z.object")
  | "Union" => some ("z.union")
  | "Intersect" => some ("z.intersection")
  | "Optional" => some ("z.optional")
  | "Literal" => some ("z.literal")
  | "Null" => some ("z.null()")
  | "Undefined" => some ("z.undefined()")
  | "Unknown" => some ("z.unknown()")
  | "Void" => some ("z.void()")
  | "Never" => some ("z.never()")
  | "Lazy" => some ("z.lazy")
  | "InstanceOf" => some ("z.instanceof")
  | "Nullish" => some ("z.nullish")
  | "Template" => some ("z.string")
  | "Symbol" => some ("z.symbol")
  | "Constraint" => some ("")
  | "Brand" => some ("")
  | _ => none

/-- The `methodMapping` table of `src/src/transform.ts`. -/
def methodMapping : String → Option String
  | "check" => some ("parse")
  | "guard" => some ("safeParse")
  | "parse" => some ("parse")
  | "withConstraint" => some ("refine")
  | "withBrand" => some ("brand")
  | "asReadonly" => some ("readonly")
  | "optional" => some ("optional")
  | "nullable" => some ("nullable")
  | "pick" => some ("pick")
  | "omit" => some ("omit")
  | "extend" => some ("extend")
  | "exact" => some ("strict")
  | "strict" => some ("")
  | "passthrough" => some ("")
  | "or" => some ("")
  | _ => none

/-- JavaScript truthiness of a table lookup: present and not the empty
string (`Constraint`, `Brand`, `strict`, `passthrough`, `or` map to `""`,
which is falsy). -/
def truthy : Option String → Bool
  | some s => s != ""
  | none => false

/-- Prefix check on character lists. -/
def charsPre : List Char → List Char → Bool
  | [], _ => true
  | _ :: _, [] => false
  | a :: as, b :: bs => a == b && charsPre as bs

/-- Equality check on character lists. -/
def charsEqL : List Char → List Char → Bool
  | [], [] => true
  | a :: as, b :: bs => a == b && charsEqL as bs
  | _, _ => false

/-- Suffix check on character lists. -/
def charsSuffix (pat : List Char) : List Char → Bool
  | [] => charsEqL pat []
  | c :: rest => charsEqL pat (c :: rest) || charsSuffix pat rest

/-- Substring check on character lists. -/
def charsInclude (pat : List Char) : List Char → Bool
  | [] => charsPre pat []
  | c :: rest => charsPre pat (c :: rest) || charsInclude pat rest

/-- JS `String.prototype.includes` for a non-empty pattern. -/
def stringIncludes (s pat : String) : Bool := charsInclude pat.data s.data

/-- The characters before the first opening parenthesis. -/
def takeUntilParen : List Char → List Char
  | [] => []
  | c :: rest => if c = '(' then [] else c :: takeUntilParen rest

/-- `parseZodExpression` of `src/src/transform.ts`: turns a mapping-table
string into an AST node.  `"z.x()"` becomes the call `z.x()`, `"z.x"`
becomes the member expression `z.x` (with a special list of names kept as
members even in call syntax). -/
def parseZodExpression (expr : String) : Expr :=
  if stringIncludes expr "(" then
    let name := String.mk (takeUntilParen expr.data)
    if name = "z.array" || name = "z.lazy" || name = "z.instanceof" then
      .member (idE "z") ⟨String.mk (name.data.drop 2), false⟩
    else
      .call (.member (idE "z") ⟨String.mk (name.data.drop 2), false⟩) .nil
  else
    .member (idE "z") ⟨String.mk (expr.data.drop 2), false⟩

/-! ## `processImports` -/

/-- Rewrite-session state produced by `processImports`
(`importedRuntypesBuiltins`, `namespacePrefix` — called `namespaceAlias`
here —, and `symbolAlias` in the source). -/
structure ImportInfo where
  importedRuntypesBuiltins : List String
  namespaceAlias : Option String
  symbolAlias : Option String
deriving DecidableEq, Repr

/-- The state before any import is seen. -/
def emptyInfo : ImportInfo := ⟨[], none, none⟩

/-- The import-path test in `processImports`:
`importPath.includes("runtypes") || importPath.endsWith("/index.ts")`. -/
def isRuntypesImportPath (p : String) : Bool :=
  stringIncludes p "runtypes" || charsSuffix ("/index.ts".data) p.data

/-- First specifier loop of `processImports`: every named specifier's
imported name is added to `importedRuntypesBuiltins`. -/
def collectSpecBuiltins : List ImportSpec → List String → List String
  | [], acc => acc
  | .named imported _ :: rest, acc => collectSpecBuiltins rest (acc ++ [imported])
  | _ :: rest, acc => collectSpecBuiltins rest acc

/-- Second specifier loop of `processImports`: a namespace specifier sets
the namespace alias, a named `Symbol` import sets the symbol alias. -/
def applySpecAliases : List ImportSpec → ImportInfo → ImportInfo
  | [], info => info
  | .star localName :: rest, info =>
      applySpecAliases rest { info with namespaceAlias := some localName }
  | .named imported localName :: rest, info =>
      if imported = "Symbol" then
        applySpecAliases rest { info with symbolAlias := some localName }
      else applySpecAliases rest info
  | .defaultSpec _ :: rest, info => applySpecAliases rest info

/-- Worker for `processImports`: removes every matching import
declaration, accumulating the session state; the boolean records whether
any import was removed (it drives both `hasModifications` and
`needsZodImport` in the source). -/
def processImportsGo : StmtList → ImportInfo → Bool → StmtList × ImportInfo × Bool
  | .nil, info, changed => (.nil, info, changed)
  | .cons s rest, info, changed =>
    match s with
    | .importDecl specs src =>
      if isRuntypesImportPath src then
        let info1 := { info with
          importedRuntypesBuiltins :=
            collectSpecBuiltins specs info.importedRuntypesBuiltins }
        processImportsGo rest (applySpecAliases specs info1) true
      else
        let r := processImportsGo rest info changed
        (.cons s r.1, r.2)
    | _ =>
      let r := processImportsGo rest info changed
      (.cons s r.1, r.2)

/-- `processImports` of `src/src/transform.ts`. -/
def processImports (p : StmtList) : StmtList × ImportInfo × Bool :=
  processImportsGo p emptyInfo false

/-! ## `markJsBuiltins` -/

/-- Mark a member-expression property identifier
(second `find` of `markJsBuiltins`). -/
def markProp (p : Ident) : Ident :=
  if jsBuiltinNames.contains p.name then ⟨p.name, true⟩ else p

mutual

/-- `markJsBuiltins` of `src/src/transform.ts`: marks builtin-named
identifiers that are the callee of a call, an argument of a call, or the
property of a member expression. -/
def markExpr : Expr → Expr
  | .evar i => .evar i
  | .str s => .str s
  | .num n => .num n
  | .boolL b => .boolL b
  | .call c args => .call (markCallee c) (markArgs args)
  | .member o p => .member (markExpr o) (markProp p)
  | .objectE props => .objectE (markOProps props)
  | .arrayE es => .arrayE (markElems es)
  | .arrow ps b => .arrow ps (markExpr b)
  | .logical op l r => .logical op (markExpr l) (markExpr r)

/-- Marking in callee position (first `find` of `markJsBuiltins`). -/
def markCallee : Expr → Expr
  | .evar i =>
      if jsBuiltinNames.contains i.name then .evar ⟨i.name, true⟩ else .evar i
  | e => markExpr e

/-- Marking of direct call arguments (second `find` of `markJsBuiltins`). -/
def markArgs : ExprList → ExprList
  | .nil => .nil
  | .cons a rest => .cons (markArg a) (markArgs rest)

/-- A builtin-named identifier that is itself a call argument is marked. -/
def markArg : Expr → Expr
  | .evar i =>
      if jsBuiltinNames.contains i.name then .evar ⟨i.name, true⟩ else .evar i
  | e => markExpr e

/-- Marking inside array literals (no marking at the elements themselves). -/
def markElems : ExprList → ExprList
  | .nil => .nil
  | .cons e rest => .cons (markExpr e) (markElems rest)

/-- Marking inside object literals (property values are not direct call
arguments, so they are only traversed). -/
def markOProps : PropList → PropList
  | .nil => .nil
  | .cons k v rest => .cons k (markExpr v) (markOProps rest)

end

/-! ## Statement-level traversal

Every expression pass of the transformer acts uniformly on the
expressions of the unit (the two places that look at statement context —
`transformGuardToSafeParse` and the unused `isInIfCondition` of
`transformNamespaceMethodCalls` — behave identically in every context,
see below), so each pass is a plain map over the statements. -/

mutual

/-- Apply an expression transformation to every statement of a body.
Import declarations carry no expressions and are left untouched. -/
def mapStmtExprs (f : Expr → Expr) : StmtList → StmtList
  | .nil => .nil
  | .cons s rest => .cons (mapStmtExpr f s) (mapStmtExprs f rest)

/-- Apply an expression transformation to one statement. -/
def mapStmtExpr (f : Expr → Expr) : Stmt → Stmt
  | .importDecl specs src => .importDecl specs src
  | .exprStmt e => .exprStmt (f e)
  | .varDecl n e => .varDecl n (f e)
  | .ifStmt t th el => .ifStmt (f t) (mapStmtExprs f th) (mapStmtExprs f el)
  | .returnStmt e => .returnStmt (f e)

end

/-! ## `transformStandaloneTypeIdentifiers` -/

/-- The expression-parent context an identifier is inspected in by
`shouldSkipIdentifier` (the object of a member expression, the callee of
a call, an argument of a call — together with whether that call's callee
is a `.filter` member expression — or anything else). -/
inductive ECtx where
  | generic
  | memberObj
  | callCallee
  | callArg (filterCallee : Bool)
deriving DecidableEq, Repr

/-- Whether a call's callee is a member expression whose property is
named `filter` (the higher-order-function check of
`shouldSkipIdentifier`). -/
def isFilterCallee : Expr → Bool
  | .member _ p => p.name = "filter"
  | _ => false

/-- `shouldSkipIdentifier` of `src/src/transform.ts`, clause for clause.
The import-specifier clause cannot fire in expression position and the
member-property clauses are handled at the member node (property
identifiers with builtin names are always marked by `markJsBuiltins`). -/
def shouldSkipIdentifier (info : ImportInfo) (i : Ident) (ctx : ECtx) : Bool :=
  if ctx = .memberObj then true
  else if i.mark then true
  else if ctx = .callCallee && jsBuiltinNames.contains i.name then true
  else if info.namespaceAlias.isSome && jsBuiltinNames.contains i.name then
    -- with a namespace import, a builtin-named identifier in expression
    -- position is never `alias.Name`'s property, so it is always skipped
    true
  else if info.namespaceAlias.isNone && jsBuiltinNames.contains i.name
      && !info.importedRuntypesBuiltins.contains i.name then true
  else
    match ctx with
    | .callArg true => jsBuiltinNames.contains i.name
    | _ => false

/-- The zero-argument zod call `z.m()`. -/
def zCall (m : String) : Expr := .call (.member (idE "z") ⟨m, false⟩) .nil

/-- `replaceWithZodType` of `src/src/transform.ts`: only `String`,
`Number`, `Boolean` and the symbol alias are actually replaced, and a
call callee is never replaced. -/
def replaceWithZodType (info : ImportInfo) (i : Ident) (ctx : ECtx) : Expr :=
  if ctx = .callCallee then .evar i
  else if i.name = "String" then zCall ("string")
  else if i.name = "Number" then zCall ("number")
  else if i.name = "Boolean" then zCall ("boolean")
  else if info.symbolAlias = some i.name then zCall ("symbol")
  else .evar i

mutual

/-- `transformStandaloneTypeIdentifiers` of `src/src/transform.ts`:
visits every identifier whose name is a `typeMapping` key or the symbol
alias, skips it when `shouldSkipIdentifier` says so, and otherwise
applies `replaceWithZodType`.  (An aliased `Symbol` import used as a
member property would corrupt the member node in the source; property
positions are represented by plain names here and no claim concerns that
corner.) -/
def standaloneExpr (info : ImportInfo) (ctx : ECtx) : Expr → Expr
  | .evar i =>
      if ((typeMapping i.name).isSome || info.symbolAlias = some i.name)
          && !shouldSkipIdentifier info i ctx then
        replaceWithZodType info i ctx
      else .evar i
  | .str s => .str s
  | .num n => .num n
  | .boolL b => .boolL b
  | .call c args =>
      .call (standaloneExpr info .callCallee c)
        (standaloneArgs info (isFilterCallee c) args)
  | .member o p => .member (standaloneExpr info .memberObj o) p
  | .objectE props => .objectE (standaloneOProps info props)
  | .arrayE es => .arrayE (standaloneElems info es)
  | .arrow ps b => .arrow ps (standaloneExpr info .generic b)
  | .logical op l r =>
      .logical op (standaloneExpr info .generic l) (standaloneExpr info .generic r)

/-- Arguments of a call, in `callArg` context. -/
def standaloneArgs (info : ImportInfo) (filterCallee : Bool) : ExprList → ExprList
  | .nil => .nil
  | .cons a rest =>
      .cons (standaloneExpr info (.callArg filterCallee) a)
        (standaloneArgs info filterCallee rest)

/-- Array-literal elements (generic context). -/
def standaloneElems (info : ImportInfo) : ExprList → ExprList
  | .nil => .nil
  | .cons e rest =>
      .cons (standaloneExpr info .generic e) (standaloneElems info rest)

/-- Object-literal property values (generic context: their parent is a
`Property` node). -/
def standaloneOProps (info : ImportInfo) : PropList → PropList
  | .nil => .nil
  | .cons k v rest =>
      .cons k (standaloneExpr info .generic v) (standaloneOProps info rest)

end

/-! ## `transformTypeCallExpressions`

The collection filter, the per-name dispatch
(`transformObjectCall`, `transformArrayCall`, `transformOptionalCall`,
`transformUnionCall`, `transformTupleCall`, `transformIntersectCall`) and
the default callee replacement, with the `live` flag described in the
header: branches that assign into the node (`callee`, a property value,
an argument slot) always take effect, while branches that `replaceWith`
a freshly built node only take effect when the node's container is still
reachable; children moved into freshly built arrays lose their container
(`live := false`), children left in the node's own containers keep it
(`live := true`). -/

/-- The builtin part of the collection filter of
`transformTypeCallExpressions`: a builtin-named callee is rejected when
it is marked, was not imported from runtypes, or is invoked with at
least one argument. -/
def ttcSkipBuiltin (info : ImportInfo) (i : Ident) (args : ExprList) : Bool :=
  jsBuiltinNames.contains i.name
  && (i.mark || !info.importedRuntypesBuiltins.contains i.name
      || !(args = .nil))

/-- The `allLiterals` test of `transformUnionCall`: every argument is a
call whose callee is an identifier named `Literal` (vacuously true for an
empty argument list, as `Array.prototype.every` is). -/
def unionArgsAllLiterals : ExprList → Bool
  | .nil => true
  | .cons (.call (.evar j) _) rest =>
      j.name = "Literal" && unionArgsAllLiterals rest
  | .cons _ _ => false

mutual

/-- `transformTypeCallExpressions` of `src/src/transform.ts`. -/
def ttcExpr (info : ImportInfo) (live : Bool) : Expr → Expr
  | .call (.evar i) args =>
      if ttcSkipBuiltin info i args then
        .call (.evar i) (ttcArgsLive info args)
      else if (typeMapping i.name).isSome then
        match typeMapping i.name with
        | some m =>
          if m = "" then
            -- Constraint / Brand: `if (!mappedType) return`
            .call (.evar i) (ttcArgsLive info args)
          else if i.name = "Object" then ttcObjectCall info args
          else if i.name = "Array" then ttcArrayCall info i args
          else if i.name = "Optional" then ttcOptionalCall info live i args
          else if i.name = "Union" then ttcUnionCall info live i args
          else if i.name = "Tuple" then ttcTupleCall info live i args
          else if i.name = "Intersect" then ttcIntersectCall info live i args
          else
            -- default: in-place callee replacement
            .call (parseZodExpression m) (ttcArgsLive info args)
        | none => .call (.evar i) (ttcArgsLive info args)
      else
        .call (.evar i) (ttcArgsLive info args)
  | .call c args => .call (ttcExpr info true c) (ttcArgsLive info args)
  | .evar i => .evar i
  | .str s => .str s
  | .num n => .num n
  | .boolL b => .boolL b
  | .member o p => .member (ttcExpr info true o) p
  | .objectE props => .objectE (ttcOProps info props)
  | .arrayE es => .arrayE (ttcArgsLive info es)
  | .arrow ps b => .arrow ps (ttcExpr info true b)
  | .logical op l r => .logical op (ttcExpr info true l) (ttcExpr info true r)
termination_by e => sizeOf e

/-- Children kept in their original containers (in-place branches and
unmatched nodes). -/
def ttcArgsLive (info : ImportInfo) : ExprList → ExprList
  | .nil => .nil
  | .cons a rest => .cons (ttcExpr info true a) (ttcArgsLive info rest)
termination_by l => sizeOf l

/-- Property values of an object literal left in place. -/
def ttcOProps (info : ImportInfo) : PropList → PropList
  | .nil => .nil
  | .cons k v rest => .cons k (ttcExpr info true v) (ttcOProps info rest)
termination_by l => sizeOf l

/-- `transformObjectCall`: identifier property values with a truthy
mapping become zod expressions (with explicit builds for `String`,
`Number`, `Boolean`); everything happens in place and the callee becomes
`typeMapping["Object"]`. -/
def ttcObjectCall (info : ImportInfo) (args : ExprList) : Expr :=
  match args with
  | .nil => .call (parseZodExpression ("z.object")) .nil
  | .cons (.objectE props) rest =>
      .call (parseZodExpression ("z.object"))
        (.cons (.objectE (ttcObjectProps info props)) (ttcArgsLive info rest))
  | .cons a rest =>
      .call (parseZodExpression ("z.object"))
        (.cons (ttcExpr info true a) (ttcArgsLive info rest))
termination_by sizeOf args + 1

/-- The property loop of `transformObjectCall`. -/
def ttcObjectProps (info : ImportInfo) : PropList → PropList
  | .nil => .nil
  | .cons k (.evar v) rest =>
      let value :=
        match typeMapping v.name with
        | some mv =>
          if mv = "" then Expr.evar v
          else if v.name = "String" then zCall ("string")
          else if v.name = "Number" then zCall ("number")
          else if v.name = "Boolean" then zCall ("boolean")
          else parseZodExpression mv
        | none => Expr.evar v
      .cons k value (ttcObjectProps info rest)
  | .cons k v rest => .cons k (ttcExpr info true v) (ttcObjectProps info rest)
termination_by l => sizeOf l

/-- `transformArrayCall`: returns untouched unless `Array` was imported
from runtypes; an identifier first argument with a truthy mapping is
replaced in place, then the callee becomes `z.array`. -/
def ttcArrayCall (info : ImportInfo) (i : Ident) (args : ExprList) : Expr :=
  if !info.importedRuntypesBuiltins.contains "Array" then
    .call (.evar i) (ttcArgsLive info args)
  else
    match args with
    | .nil => .call (parseZodExpression ("z.array")) .nil
    | .cons (.evar v) rest =>
        if truthy (typeMapping v.name) then
          .call (parseZodExpression ("z.array"))
            (.cons (parseZodExpression ((typeMapping v.name).getD ""))
              (ttcArgsLive info rest))
        else
          .call (parseZodExpression ("z.array"))
            (.cons (.evar v) (ttcArgsLive info rest))
    | .cons a rest =>
        .call (parseZodExpression ("z.array"))
          (.cons (ttcExpr info true a) (ttcArgsLive info rest))
termination_by sizeOf args + 1

/-- `transformOptionalCall`: an identifier first argument with a truthy
mapping turns the whole call into `<zod>.optional()` (a `replaceWith`,
hence only when live); otherwise nothing happens. -/
def ttcOptionalCall (info : ImportInfo) (live : Bool) (i : Ident)
    (args : ExprList) : Expr :=
  match args with
  | .nil => .call (.evar i) .nil
  | .cons (.evar v) rest =>
      if truthy (typeMapping v.name) then
        if live then
          .call
            (.member (parseZodExpression ((typeMapping v.name).getD ""))
              ⟨"optional", false⟩) .nil
        else .call (.evar i) (.cons (.evar v) (ttcArgsLive info rest))
      else .call (.evar i) (.cons (.evar v) (ttcArgsLive info rest))
  | .cons a rest =>
      .call (.evar i) (.cons (ttcExpr info true a) (ttcArgsLive info rest))
termination_by sizeOf args + 1

/-- `transformUnionCall`: when every argument is a `Literal` call the
whole node becomes `z.enum([...values])` (values are moved into a fresh
array, so their containers die); otherwise the generic union path builds
`z.union([...])` over a fresh mapped array. -/
def ttcUnionCall (info : ImportInfo) (live : Bool) (i : Ident)
    (args : ExprList) : Expr :=
  if unionArgsAllLiterals args then
    if live then
      .call (.member (idE "z") ⟨"enum", false⟩)
        (.cons (.arrayE (ttcEnumValues info args)) .nil)
    else .call (.evar i) (ttcArgsLive info args)
  else
    if live then
      .call (parseZodExpression ("z.union"))
        (.cons (.arrayE (ttcCtorArgs info args)) .nil)
    else .call (.evar i) (ttcArgsLive info args)
termination_by sizeOf args + 1

/-- The `literalValues` extraction of `transformUnionCall`
(`arg.arguments[0]`); a zero-argument `Literal` call yields the JS
`undefined` slot, which we render as the identifier `undefined` (the
real builder would produce a hole — no claim exercises this). -/
def ttcEnumValues (info : ImportInfo) : ExprList → ExprList
  | .nil => .nil
  | .cons (.call _ (.cons v _)) rest =>
      .cons (ttcExpr info false v) (ttcEnumValues info rest)
  | .cons (.call _ .nil) rest => .cons (idE "undefined") (ttcEnumValues info rest)
  | .cons a rest => .cons (ttcExpr info false a) (ttcEnumValues info rest)
termination_by l => sizeOf l

/-- The argument mapping shared by the generic union, tuple and
intersection paths: identifier arguments with a truthy mapping become
zod expressions, everything else is moved (with a dead container) into
the fresh array. -/
def ttcCtorArgs (info : ImportInfo) : ExprList → ExprList
  | .nil => .nil
  | .cons (.evar v) rest =>
      let a :=
        if truthy (typeMapping v.name) then
          parseZodExpression ((typeMapping v.name).getD "")
        else Expr.evar v
      .cons a (ttcCtorArgs info rest)
  | .cons a rest => .cons (ttcExpr info false a) (ttcCtorArgs info rest)
termination_by l => sizeOf l

/-- `transformTupleCall`. -/
def ttcTupleCall (info : ImportInfo) (live : Bool) (i : Ident)
    (args : ExprList) : Expr :=
  if live then
    .call (parseZodExpression ("z.tuple"))
      (.cons (.arrayE (ttcCtorArgs info args)) .nil)
  else .call (.evar i) (ttcArgsLive info args)
termination_by sizeOf args + 1

/-- `transformIntersectCall`. -/
def ttcIntersectCall (info : ImportInfo) (live : Bool) (i : Ident)
    (args : ExprList) : Expr :=
  if live then
    .call (parseZodExpression ("z.intersection"))
      (.cons (.arrayE (ttcCtorArgs info args)) .nil)
  else .call (.evar i) (ttcArgsLive info args)
termination_by sizeOf args + 1

end

/-! ## `transformMethodCalls`

Calls whose callee is a member expression with a property in
`methodMapping`.  A truthy mapping renames the property in place; the
falsy mappings act only for `or` (the `transformStrictMethod` /
`transformPassthroughMethod` dispatch is unreachable, because the
`strict` and `passthrough` entries are falsy and hit the early return
before the dispatch on the original name runs).  Note in particular that
`guard` is renamed to `safeParse` here, *before*
`transformValidationMethods` ever runs. -/

/-- `j.StringLiteral.check(arg) || j.Literal.check(arg)`. -/
def isLiteralNode : Expr → Bool
  | .str _ => true
  | .num _ => true
  | .boolL _ => true
  | _ => false

/-- The key that `pick`/`omit` restructuring derives from a literal
argument (`j.identifier(arg.value)`). -/
def keyOfLit : Expr → String
  | .str s => s
  | .num n => toString n
  | .boolL b => if b then "true" else "false"
  | _ => ""

/-- `args.every(literal)`. -/
def exprListAllLiterals : ExprList → Bool
  | .nil => true
  | .cons a rest => isLiteralNode a && exprListAllLiterals rest

/-- The `args.length > 0 && args.every(literal)` test of
`transformPickOmitMethod`. -/
def pickOmitAllLiterals (args : ExprList) : Bool :=
  !(args = .nil) && exprListAllLiterals args

/-- `transformPickOmitMethod`'s presence map `{ a: true, b: true, ... }`. -/
def pickOmitProps : ExprList → PropList
  | .nil => .nil
  | .cons a rest => .cons (keyOfLit a) (.boolL true) (pickOmitProps rest)

mutual

/-- `transformMethodCalls` of `src/src/transform.ts`. -/
def tmcExpr (info : ImportInfo) (live : Bool) : Expr → Expr
  | .call (.member o p) args => tmcCallM info live o p args (methodMapping p.name)
  | .call c args => .call (tmcExpr info true c) (tmcArgs info args)
  | .evar i => .evar i
  | .str s => .str s
  | .num n => .num n
  | .boolL b => .boolL b
  | .member o p => .member (tmcExpr info true o) p
  | .objectE props => .objectE (tmcOProps info props)
  | .arrayE es => .arrayE (tmcArgs info es)
  | .arrow ps b => .arrow ps (tmcExpr info true b)
  | .logical op l r => .logical op (tmcExpr info true l) (tmcExpr info true r)
termination_by e => sizeOf e

/-- The per-call behaviour of `transformMethodCalls`, dispatching on the
`methodMapping` lookup. -/
def tmcCallM (info : ImportInfo) (live : Bool) (o : Expr) (p : Ident)
    (args : ExprList) : Option String → Expr
  | none => .call (.member (tmcExpr info true o) p) (tmcArgs info args)
  | some mapped =>
    if mapped = "" then
      if p.name = "or" then
        -- `transformOrMethod`: receiver and arguments move into a fresh
        -- array literal (dead containers)
        match args with
        | .nil => .call (.member (tmcExpr info true o) p) .nil
        | .cons a rest =>
          if live then
            .call (parseZodExpression ("z.union"))
              (.cons
                (.arrayE (.cons (tmcExpr info false o)
                  (.cons (tmcExpr info false a) (tmcArgsDead info rest)))) .nil)
          else
            .call (.member (tmcExpr info true o) p)
              (.cons (tmcExpr info true a) (tmcArgs info rest))
      else
        -- strict / passthrough: falsy mapping, nothing happens
        .call (.member (tmcExpr info true o) p) (tmcArgs info args)
    else
      -- in-place rename of the property, then the special cases
      if p.name = "withConstraint" then
        .call (.member (tmcExpr info true o) ⟨mapped, p.mark⟩)
          (tmcWithConstraintArgs info args)
      else if p.name = "pick" || p.name = "omit" then
        if pickOmitAllLiterals args then
          .call (.member (tmcExpr info true o) ⟨mapped, p.mark⟩)
            (.cons (.objectE (pickOmitProps args)) .nil)
        else
          .call (.member (tmcExpr info true o) ⟨mapped, p.mark⟩)
            (tmcArgs info args)
      else
        .call (.member (tmcExpr info true o) ⟨mapped, p.mark⟩)
          (tmcArgs info args)
termination_by sizeOf o + sizeOf args + 1

/-- `transformWithConstraintMethod` of `src/src/transform.ts`: a sole
arrow-function argument whose body is `test || <literal>` is destructured
into `[params => test, literal]` (the moved `test` loses its container);
any other shape is passed through (and traversed in place). -/
def tmcWithConstraintArgs (info : ImportInfo) : ExprList → ExprList
  | .nil => .nil
  | .cons (.arrow params (.logical op l r)) rest =>
      if op = "||" && isLiteralNode r then
        .cons (.arrow params (tmcExpr info false l)) (.cons r .nil)
      else
        .cons (.arrow params
            (.logical op (tmcExpr info true l) (tmcExpr info true r)))
          (tmcArgs info rest)
  | .cons a rest => .cons (tmcExpr info true a) (tmcArgs info rest)
termination_by l => sizeOf l

/-- Arguments kept in their original containers. -/
def tmcArgs (info : ImportInfo) : ExprList → ExprList
  | .nil => .nil
  | .cons a rest => .cons (tmcExpr info true a) (tmcArgs info rest)
termination_by l => sizeOf l

/-- Arguments moved into a fresh array literal (dead containers). -/
def tmcArgsDead (info : ImportInfo) : ExprList → ExprList
  | .nil => .nil
  | .cons a rest => .cons (tmcExpr info false a) (tmcArgsDead info rest)
termination_by l => sizeOf l

/-- Object-literal property values. -/
def tmcOProps (info : ImportInfo) : PropList → PropList
  | .nil => .nil
  | .cons k v rest => .cons k (tmcExpr info true v) (tmcOProps info rest)
termination_by l => sizeOf l

end

/-- The per-call behaviour of `transformMethodCalls` (the body of its
`forEach`). -/
def tmcCall (info : ImportInfo) (live : Bool) (o : Expr) (p : Ident)
    (args : ExprList) : Expr :=
  tmcCallM info live o p args (methodMapping p.name)

/-! ## `transformValidationMethods` / `transformGuardToSafeParse`

Member expressions whose property is `check`, `guard` or `parse`, unless
the receiver is namespace-qualified or already a `z.…()` call.  `check`
and `parse` are renamed to `parse` in place.  For `guard` the property is
renamed to `safeParse` and, when the member is the callee of a call,
`transformGuardToSafeParse` replaces the parent call by
`obj.safeParse(args).success` — its two branches (if-condition or not)
build exactly the same node, so no statement context is needed.  The
replacement reuses the original arguments array (live) but wraps the
receiver in a fresh member node (so the receiver's own container dies).
The `safeParse` branch inside the source's `forEach` is unreachable
because the collection filter only admits `check`/`guard`/`parse`.

(A bare `guard` member that is an *argument* of a call would make the
source replace that whole call — a corrupting corner none of the claims
exercises; here such a member is only renamed.) -/

/-- Size positivity for identifier nodes (used by termination proofs). -/
theorem ident_sizeOf_pos (p : Ident) : 0 < sizeOf p := by
  cases p; simp

/-- The collection filter of `transformValidationMethods`. -/
def vmMatched (info : ImportInfo) (o : Expr) (p : Ident) : Bool :=
  ["check", "guard", "parse"].contains p.name
  && !(match info.namespaceAlias, o with
      | some a, .member (.evar oi) _ => oi.name = a
      | _, _ => false)
  && !(match o with
      | .call (.member (.evar zi) _) _ => zi.name = "z"
      | _ => false)

mutual

/-- `transformValidationMethods` of `src/src/transform.ts`. -/
def vmExpr (info : ImportInfo) (live : Bool) : Expr → Expr
  | .call (.member o p) args => vmCall info live o p args
  | .call c args => .call (vmExpr info true c) (vmArgs info args)
  | .evar i => .evar i
  | .str s => .str s
  | .num n => .num n
  | .boolL b => .boolL b
  | .member o p => vmBareMember info o p
  | .objectE props => .objectE (vmOProps info props)
  | .arrayE es => .arrayE (vmArgs info es)
  | .arrow ps b => .arrow ps (vmExpr info true b)
  | .logical op l r => .logical op (vmExpr info true l) (vmExpr info true r)
termination_by e => sizeOf e
decreasing_by
  all_goals simp_wf
  all_goals first
    | omega
    | (have hp := ident_sizeOf_pos p; omega)

/-- A call whose callee is a member expression. -/
def vmCall (info : ImportInfo) (live : Bool) (o : Expr) (p : Ident)
    (args : ExprList) : Expr :=
  if vmMatched info o p then
    if p.name = "check" || p.name = "parse" then
      .call (.member (vmExpr info true o) ⟨"parse", p.mark⟩) (vmArgs info args)
    else
      -- guard: rename, then `transformGuardToSafeParse`
      if live then
        .member
          (.call (.member (vmExpr info false o) ⟨"safeParse", p.mark⟩)
            (vmArgs info args)) ⟨"success", false⟩
      else
        .call (.member (vmExpr info true o) ⟨"safeParse", p.mark⟩)
          (vmArgs info args)
  else .call (.member (vmExpr info true o) p) (vmArgs info args)
termination_by sizeOf o + sizeOf args + 1

/-- A member expression that is not the callee of a call: the property is
renamed, nothing else happens. -/
def vmBareMember (info : ImportInfo) (o : Expr) (p : Ident) : Expr :=
  if vmMatched info o p then
    if p.name = "check" || p.name = "parse" then
      .member (vmExpr info true o) ⟨"parse", p.mark⟩
    else .member (vmExpr info true o) ⟨"safeParse", p.mark⟩
  else .member (vmExpr info true o) p
termination_by sizeOf o + 1

/-- Call arguments (the arguments array is reused by the guard
replacement, so it stays live). -/
def vmArgs (info : ImportInfo) : ExprList → ExprList
  | .nil => .nil
  | .cons a rest => .cons (vmExpr info true a) (vmArgs info rest)
termination_by l => sizeOf l

/-- Object-literal property values. -/
def vmOProps (info : ImportInfo) : PropList → PropList
  | .nil => .nil
  | .cons k v rest => .cons k (vmExpr info true v) (vmOProps info rest)
termination_by l => sizeOf l

end

/-! ## `transformNamespaceImports`

The three expression-level sub-passes, run in order on the current tree:
`transformNamespaceCallExpressions`, `transformNamespaceMethodCalls`,
`transformNamespaceMemberExpressions`
(`transformNamespaceStaticTypes` only rewrites type annotations and is
outside the expression language).  The whole stage is a no-op when no
namespace alias was recorded (`if (!namespacePrefix) return`). -/

/-- The primitive names special-cased by the namespace passes. -/
def nsPrimitiveNames : List String :=
  ["String", "Number", "Boolean", "Null", "Undefined", "Unknown", "Void",
    "Never"]

/-- The constructor names of `transformNamespaceMemberExpressions`'
second branch. -/
def nsCtorNames : List String :=
  ["Array", "Tuple", "Record", "Object", "Union", "Intersect", "Optional",
    "Literal"]

/-- The property renaming of `transformNamespaceMemberExpressions`'
second branch (`Object`/`Record` → `object`, `Intersect` →
`intersection`, otherwise `toLowerCase`). -/
def nsLoweredName (s : String) : String :=
  if s = "Object" || s = "Record" then "object"
  else if s = "Intersect" then "intersection"
  else String.mk (s.data.map Char.toLower)

/-- The `allLiterals` test of `transformNamespaceUnionCall`: every
argument is a call of `alias.Literal`. -/
def nsUnionArgsAllLiterals (a : String) : ExprList → Bool
  | .nil => true
  | .cons (.call (.member (.evar ci) q) _) rest =>
      ci.name = a && q.name = "Literal" && nsUnionArgsAllLiterals a rest
  | .cons _ _ => false

mutual

/-- `transformNamespaceCallExpressions` of `src/src/transform.ts`. -/
def nscExpr (a : String) (live : Bool) : Expr → Expr
  | .call (.member (.evar oi) p) args =>
      if oi.name = a && (typeMapping p.name).isSome then
        match typeMapping p.name with
        | some m =>
          if m = "" then
            -- Constraint / Brand: `if (!mappedType) return`
            .call (.member (.evar oi) p) (nscArgs a args)
          else if (p.name = "Array" || p.name = "Object" || p.name = "Union")
              && !(args = .nil) then
            if p.name = "Array" then nscArrayCall a live oi p args
            else if p.name = "Object" then nscObjectCall a live oi p args
            else nscUnionCall a live oi p args
          else if stringIncludes m "(" then
            -- whole-node `replaceWith`; the original arguments are dropped
            if live then parseZodExpression m
            else .call (.member (.evar oi) p) (nscArgs a args)
          else
            -- in-place callee replacement (e.g. `t.Tuple(...)` →
            -- `z.tuple(...)` with the arguments untouched)
            .call (parseZodExpression m) (nscArgs a args)
        | none => .call (.member (.evar oi) p) (nscArgs a args)
      else .call (.member (.evar oi) p) (nscArgs a args)
  | .call c args => .call (nscExpr a true c) (nscArgs a args)
  | .evar i => .evar i
  | .str s => .str s
  | .num n => .num n
  | .boolL b => .boolL b
  | .member o p => .member (nscExpr a true o) p
  | .objectE props => .objectE (nscOProps a props)
  | .arrayE es => .arrayE (nscArgs a es)
  | .arrow ps b => .arrow ps (nscExpr a true b)
  | .logical op l r => .logical op (nscExpr a true l) (nscExpr a true r)
termination_by e => sizeOf e

/-- `transformNamespaceArrayCall`: a qualified primitive argument becomes
its zod expression; the (first) argument is moved into a fresh
single-element array, so its container dies; any further arguments are
dropped by the rebuild. -/
def nscArrayCall (a : String) (live : Bool) (oi : Ident) (p : Ident)
    (args : ExprList) : Expr :=
  match args with
  | .nil => .call (.member (.evar oi) p) .nil
  | .cons (.member (.evar ai) q) rest =>
      if ai.name = a && truthy (typeMapping q.name) then
        if live then
          .call (.member (idE "z") ⟨"array", false⟩)
            (.cons (parseZodExpression ((typeMapping q.name).getD "")) .nil)
        else
          .call (.member (.evar oi) p)
            (.cons (.member (.evar ai) q) (nscArgs a rest))
      else
        if live then
          .call (.member (idE "z") ⟨"array", false⟩)
            (.cons (.member (.evar ai) q) .nil)
        else
          .call (.member (.evar oi) p)
            (.cons (.member (.evar ai) q) (nscArgs a rest))
  | .cons arg0 rest =>
      if live then
        .call (.member (idE "z") ⟨"array", false⟩)
          (.cons (nscExpr a false arg0) .nil)
      else
        .call (.member (.evar oi) p)
          (.cons (nscExpr a true arg0) (nscArgs a rest))
termination_by sizeOf args + 1

/-- `transformNamespaceObjectCall`: qualified primitive property values
are replaced in place inside the reused object literal, which then
becomes the single argument of `z.object(...)`. -/
def nscObjectCall (a : String) (live : Bool) (oi : Ident) (p : Ident)
    (args : ExprList) : Expr :=
  match args with
  | .nil => .call (.member (.evar oi) p) .nil
  | .cons (.objectE props) rest =>
      if live then
        .call (.member (idE "z") ⟨"object", false⟩)
          (.cons (.objectE (nscObjProps a props)) .nil)
      else
        .call (.member (.evar oi) p)
          (.cons (.objectE (nscObjProps a props)) (nscArgs a rest))
  | .cons arg0 rest =>
      if live then
        .call (.member (idE "z") ⟨"object", false⟩)
          (.cons (nscExpr a false arg0) .nil)
      else
        .call (.member (.evar oi) p)
          (.cons (nscExpr a true arg0) (nscArgs a rest))
termination_by sizeOf args + 1

/-- The property loop of `transformNamespaceObjectCall`: property values
of the (reused) object literal keep live containers. -/
def nscObjProps (a : String) : PropList → PropList
  | .nil => .nil
  | .cons k (.member (.evar ai) q) rest =>
      if ai.name = a && truthy (typeMapping q.name) then
        .cons k (parseZodExpression ((typeMapping q.name).getD ""))
          (nscObjProps a rest)
      else .cons k (.member (.evar ai) q) (nscObjProps a rest)
  | .cons k v rest => .cons k (nscExpr a true v) (nscObjProps a rest)
termination_by l => sizeOf l

/-- `transformNamespaceUnionCall`: the all-`alias.Literal` case collapses
to `z.enum([...])` (values moved to a fresh array, dead containers); the
generic case builds `z.union([...])` but *reuses* the original arguments
array as the array literal's elements, so the arguments stay live. -/
def nscUnionCall (a : String) (live : Bool) (oi : Ident) (p : Ident)
    (args : ExprList) : Expr :=
  if nsUnionArgsAllLiterals a args then
    if live then
      .call (.member (idE "z") ⟨"enum", false⟩)
        (.cons (.arrayE (nscEnumValues a args)) .nil)
    else .call (.member (.evar oi) p) (nscArgs a args)
  else
    if live then
      .call (.member (idE "z") ⟨"union", false⟩)
        (.cons (.arrayE (nscArgs a args)) .nil)
    else .call (.member (.evar oi) p) (nscArgs a args)
termination_by sizeOf args + 1

/-- The `literalValues` extraction of `transformNamespaceUnionCall`. -/
def nscEnumValues (a : String) : ExprList → ExprList
  | .nil => .nil
  | .cons (.call _ (.cons v _)) rest =>
      .cons (nscExpr a false v) (nscEnumValues a rest)
  | .cons (.call _ .nil) rest => .cons (idE "undefined") (nscEnumValues a rest)
  | .cons e rest => .cons (nscExpr a false e) (nscEnumValues a rest)
termination_by l => sizeOf l

/-- Children kept in their original containers. -/
def nscArgs (a : String) : ExprList → ExprList
  | .nil => .nil
  | .cons e rest => .cons (nscExpr a true e) (nscArgs a rest)
termination_by l => sizeOf l

/-- Object-literal property values in generic position. -/
def nscOProps (a : String) : PropList → PropList
  | .nil => .nil
  | .cons k v rest => .cons k (nscExpr a true v) (nscOProps a rest)
termination_by l => sizeOf l

end

/-- The collection filter of `transformNamespaceMethodCalls`: a member
expression `alias.Type.method` with `Type` a `typeMapping` key and
`method` among `check`/`guard`/`parse`/`safeParse` (`safeParse` is
listed because `transformMethodCalls` has already renamed `guard`). -/
def nsmMatched (a : String) (oi t m : Ident) : Bool :=
  oi.name = a && (typeMapping t.name).isSome
  && ["check", "guard", "parse", "safeParse"].contains m.name

/-- The method renaming of `transformNamespaceMethodCalls`. -/
def nsmNewMethod (m : String) : String :=
  if m = "guard" then "safeParse"
  else if m = "check" then "parse"
  else m

mutual

/-- `transformNamespaceMethodCalls` of `src/src/transform.ts`: only
qualified *primitive* receivers act; `guard`/`safeParse` calls get the
whole parent call replaced by `z.prim().safeParse(args).success`
(reusing the arguments array, which therefore stays live), `check`/
`parse` only replace the member itself.  The computed `isInIfCondition`
is never used, so the rewrite is context-independent.  A matched bare
member with `guard`/`safeParse` does nothing (its parent is not a
call). -/
def nsmExpr (a : String) : Expr → Expr
  | .call (.member (.member (.evar oi) t) m) args =>
      if nsmMatched a oi t m then
        if nsPrimitiveNames.contains t.name && truthy (typeMapping t.name) then
          if m.name = "guard" || m.name = "safeParse" then
            .member
              (.call
                (.member (parseZodExpression ((typeMapping t.name).getD ""))
                  ⟨nsmNewMethod m.name, false⟩)
                (nsmArgs a args)) ⟨"success", false⟩
          else
            .call
              (.member (parseZodExpression ((typeMapping t.name).getD ""))
                ⟨nsmNewMethod m.name, false⟩)
              (nsmArgs a args)
        else .call (.member (.member (.evar oi) t) m) (nsmArgs a args)
      else .call (.member (.member (.evar oi) t) m) (nsmArgs a args)
  | .call c args => .call (nsmExpr a c) (nsmArgs a args)
  | .evar i => .evar i
  | .str s => .str s
  | .num n => .num n
  | .boolL b => .boolL b
  | .member o p => nsmBareMember a o p
  | .objectE props => .objectE (nsmOProps a props)
  | .arrayE es => .arrayE (nsmArgs a es)
  | .arrow ps b => .arrow ps (nsmExpr a b)
  | .logical op l r => .logical op (nsmExpr a l) (nsmExpr a r)
termination_by e => sizeOf e
decreasing_by
  all_goals simp_wf
  all_goals first
    | omega
    | (have hp := ident_sizeOf_pos p; omega)

/-- A matched member expression that is not the callee of a call:
`check`/`parse` are replaced by `z.prim().parse`; `guard`/`safeParse`
are left untouched. -/
def nsmBareMember (a : String) (o : Expr) (p : Ident) : Expr :=
  match o with
  | .member (.evar oi) t =>
      if nsmMatched a oi t p
          && nsPrimitiveNames.contains t.name
          && truthy (typeMapping t.name) then
        if p.name = "guard" || p.name = "safeParse" then
          .member (.member (.evar oi) t) p
        else
          .member (parseZodExpression ((typeMapping t.name).getD ""))
            ⟨nsmNewMethod p.name, false⟩
      else .member (.member (.evar oi) t) p
  | o => .member (nsmExpr a o) p
termination_by sizeOf o + 1

/-- Call arguments (reused array, live). -/
def nsmArgs (a : String) : ExprList → ExprList
  | .nil => .nil
  | .cons e rest => .cons (nsmExpr a e) (nsmArgs a rest)
termination_by l => sizeOf l

/-- Object-literal property values. -/
def nsmOProps (a : String) : PropList → PropList
  | .nil => .nil
  | .cons k v rest => .cons k (nsmExpr a v) (nsmOProps a rest)
termination_by l => sizeOf l

end

mutual

/-- `transformNamespaceMemberExpressions` of `src/src/transform.ts`.
`isArg` records whether the node is a direct argument of a call
(`isArgToCallExpr`).  Qualified primitives become their zod expressions;
constructor names (or any qualified mapping key in argument position)
are rewritten in place to `z.<lowered>`; every other qualified member —
e.g. `alias.BigInt` in a plain position — is left untouched. -/
def nsmeExpr (a : String) (isArg : Bool) : Expr → Expr
  | .member (.evar oi) p =>
      if oi.name = a && (typeMapping p.name).isSome then
        match typeMapping p.name with
        | some m =>
          if m = "" then .member (.evar oi) p
          else if nsPrimitiveNames.contains p.name then parseZodExpression m
          else if isArg || nsCtorNames.contains p.name then
            .member (idE "z") ⟨nsLoweredName p.name, false⟩
          else .member (.evar oi) p
        | none => .member (.evar oi) p
      else .member (.evar oi) p
  | .member o p => .member (nsmeExpr a false o) p
  | .call c args => .call (nsmeExpr a false c) (nsmeArgs a args)
  | .evar i => .evar i
  | .str s => .str s
  | .num n => .num n
  | .boolL b => .boolL b
  | .objectE props => .objectE (nsmeOProps a props)
  | .arrayE es => .arrayE (nsmeElems a es)
  | .arrow ps b => .arrow ps (nsmeExpr a false b)
  | .logical op l r => .logical op (nsmeExpr a false l) (nsmeExpr a false r)
termination_by e => sizeOf e

/-- Direct call arguments (`isArgToCallExpr` holds). -/
def nsmeArgs (a : String) : ExprList → ExprList
  | .nil => .nil
  | .cons e rest => .cons (nsmeExpr a true e) (nsmeArgs a rest)
termination_by l => sizeOf l

/-- Array-literal elements (not call arguments). -/
def nsmeElems (a : String) : ExprList → ExprList
  | .nil => .nil
  | .cons e rest => .cons (nsmeExpr a false e) (nsmeElems a rest)
termination_by l => sizeOf l

/-- Object-literal property values. -/
def nsmeOProps (a : String) : PropList → PropList
  | .nil => .nil
  | .cons k v rest => .cons k (nsmeExpr a false v) (nsmeOProps a rest)
termination_by l => sizeOf l

end

/-- `transformNamespaceImports` of `src/src/transform.ts`: a no-op
without a namespace alias, otherwise the three expression sub-passes in
their source order. -/
def transformNamespaceImports (info : ImportInfo) (p : StmtList) : StmtList :=
  match info.namespaceAlias with
  | none => p
  | some a =>
      mapStmtExprs (nsmeExpr a false)
        (mapStmtExprs (nsmExpr a) (mapStmtExprs (nscExpr a true) p))

/-! ## The `hasModifications` flag

Each pass sets `hasModifications` inside its `forEach` (stale bodies
included), so per pass the flag is "some node of the pass's input tree
matches and reaches a flag-setting line".  The predicates below mirror
exactly where each pass assigns the flag. -/

mutual

/-- Flag positions of `transformStandaloneTypeIdentifiers`: the flag is
only set inside the replacing branches of `replaceWithZodType`. -/
def standaloneTrigE (info : ImportInfo) (ctx : ECtx) : Expr → Bool
  | .evar i =>
      ((typeMapping i.name).isSome || info.symbolAlias = some i.name)
      && !shouldSkipIdentifier info i ctx
      && !(ctx = .callCallee)
      && (i.name = "String" || i.name = "Number" || i.name = "Boolean"
          || info.symbolAlias = some i.name)
  | .call c args =>
      standaloneTrigE info .callCallee c
      || standaloneTrigArgs info (isFilterCallee c) args
  | .member o _ => standaloneTrigE info .memberObj o
  | .objectE props => standaloneTrigOProps info props
  | .arrayE es => standaloneTrigElems info es
  | .arrow _ b => standaloneTrigE info .generic b
  | .logical _ l r =>
      standaloneTrigE info .generic l || standaloneTrigE info .generic r
  | _ => false

/-- Trigger scan over call arguments. -/
def standaloneTrigArgs (info : ImportInfo) (filterCallee : Bool) :
    ExprList → Bool
  | .nil => false
  | .cons a rest =>
      standaloneTrigE info (.callArg filterCallee) a
      || standaloneTrigArgs info filterCallee rest

/-- Trigger scan over array elements. -/
def standaloneTrigElems (info : ImportInfo) : ExprList → Bool
  | .nil => false
  | .cons a rest =>
      standaloneTrigE info .generic a || standaloneTrigElems info rest

/-- Trigger scan over object properties. -/
def standaloneTrigOProps (info : ImportInfo) : PropList → Bool
  | .nil => false
  | .cons _ v rest =>
      standaloneTrigE info .generic v || standaloneTrigOProps info rest

end

mutual

/-- Flag positions of `transformTypeCallExpressions`: the flag is set
for every collected call (even for the falsy `Constraint`/`Brand`
mappings, since the assignment precedes the early return). -/
def ttcTrigE (info : ImportInfo) : Expr → Bool
  | .call (.evar i) args =>
      (!(ttcSkipBuiltin info i args) && (typeMapping i.name).isSome)
      || ttcTrigArgs info args
  | .call c args => ttcTrigE info c || ttcTrigArgs info args
  | .member o _ => ttcTrigE info o
  | .objectE props => ttcTrigOProps info props
  | .arrayE es => ttcTrigArgs info es
  | .arrow _ b => ttcTrigE info b
  | .logical _ l r => ttcTrigE info l || ttcTrigE info r
  | _ => false

/-- Trigger scan over expression lists. -/
def ttcTrigArgs (info : ImportInfo) : ExprList → Bool
  | .nil => false
  | .cons a rest => ttcTrigE info a || ttcTrigArgs info rest

/-- Trigger scan over object properties. -/
def ttcTrigOProps (info : ImportInfo) : PropList → Bool
  | .nil => false
  | .cons _ v rest => ttcTrigE info v || ttcTrigOProps info rest

end

mutual

/-- Flag positions of `transformMethodCalls`: truthy mappings always set
the flag; among the falsy ones only `or` with at least one argument
does. -/
def tmcTrigE (info : ImportInfo) : Expr → Bool
  | .call (.member o p) args =>
      (match methodMapping p.name with
        | some mapped =>
            (mapped != "") || (p.name = "or" && !(args = .nil))
        | none => false)
      || tmcTrigE info o || tmcTrigArgs info args
  | .call c args => tmcTrigE info c || tmcTrigArgs info args
  | .member o _ => tmcTrigE info o
  | .objectE props => tmcTrigOProps info props
  | .arrayE es => tmcTrigArgs info es
  | .arrow _ b => tmcTrigE info b
  | .logical _ l r => tmcTrigE info l || tmcTrigE info r
  | _ => false

/-- Trigger scan over expression lists. -/
def tmcTrigArgs (info : ImportInfo) : ExprList → Bool
  | .nil => false
  | .cons a rest => tmcTrigE info a || tmcTrigArgs info rest

/-- Trigger scan over object properties. -/
def tmcTrigOProps (info : ImportInfo) : PropList → Bool
  | .nil => false
  | .cons _ v rest => tmcTrigE info v || tmcTrigOProps info rest

end

mutual

/-- Flag positions of `transformNamespaceCallExpressions` (every matched
call with a truthy mapping). -/
def nscTrigE (a : String) : Expr → Bool
  | .call (.member (.evar oi) p) args =>
      (oi.name = a && truthy (typeMapping p.name)) || nscTrigArgs a args
  | .call c args => nscTrigE a c || nscTrigArgs a args
  | .member o _ => nscTrigE a o
  | .objectE props => nscTrigOProps a props
  | .arrayE es => nscTrigArgs a es
  | .arrow _ b => nscTrigE a b
  | .logical _ l r => nscTrigE a l || nscTrigE a r
  | _ => false

/-- Trigger scan over expression lists. -/
def nscTrigArgs (a : String) : ExprList → Bool
  | .nil => false
  | .cons e rest => nscTrigE a e || nscTrigArgs a rest

/-- Trigger scan over object properties. -/
def nscTrigOProps (a : String) : PropList → Bool
  | .nil => false
  | .cons _ v rest => nscTrigE a v || nscTrigOProps a rest

end

mutual

/-- Flag positions of `transformNamespaceMethodCalls` (every matched
member over a primitive receiver with a truthy mapping, called or
not). -/
def nsmTrigE (a : String) : Expr → Bool
  | .member (.member (.evar oi) t) m =>
      (nsmMatched a oi t m && nsPrimitiveNames.contains t.name
        && truthy (typeMapping t.name))
  | .member o _ => nsmTrigE a o
  | .call c args => nsmTrigE a c || nsmTrigArgs a args
  | .objectE props => nsmTrigOProps a props
  | .arrayE es => nsmTrigArgs a es
  | .arrow _ b => nsmTrigE a b
  | .logical _ l r => nsmTrigE a l || nsmTrigE a r
  | _ => false

/-- Trigger scan over expression lists. -/
def nsmTrigArgs (a : String) : ExprList → Bool
  | .nil => false
  | .cons e rest => nsmTrigE a e || nsmTrigArgs a rest

/-- Trigger scan over object properties. -/
def nsmTrigOProps (a : String) : PropList → Bool
  | .nil => false
  | .cons _ v rest => nsmTrigE a v || nsmTrigOProps a rest

end

mutual

/-- Flag positions of `transformNamespaceMemberExpressions` (the first
two branches only). -/
def nsmeTrigE (a : String) (isArg : Bool) : Expr → Bool
  | .member (.evar oi) p =>
      oi.name = a && truthy (typeMapping p.name)
      && (nsPrimitiveNames.contains p.name || isArg
          || nsCtorNames.contains p.name)
  | .member o _ => nsmeTrigE a false o
  | .call c args => nsmeTrigE a false c || nsmeTrigArgs a args
  | .objectE props => nsmeTrigOProps a props
  | .arrayE es => nsmeTrigElems a es
  | .arrow _ b => nsmeTrigE a false b
  | .logical _ l r => nsmeTrigE a false l || nsmeTrigE a false r
  | _ => false

/-- Trigger scan over call arguments. -/
def nsmeTrigArgs (a : String) : ExprList → Bool
  | .nil => false
  | .cons e rest => nsmeTrigE a true e || nsmeTrigArgs a rest

/-- Trigger scan over array elements. -/
def nsmeTrigElems (a : String) : ExprList → Bool
  | .nil => false
  | .cons e rest => nsmeTrigE a false e || nsmeTrigElems a rest

/-- Trigger scan over object properties. -/
def nsmeTrigOProps (a : String) : PropList → Bool
  | .nil => false
  | .cons _ v rest => nsmeTrigE a false v || nsmeTrigOProps a rest

end

mutual

/-- Flag positions of `transformValidationMethods` (every matched
member). -/
def vmTrigE (info : ImportInfo) : Expr → Bool
  | .member o p => vmMatched info o p || vmTrigE info o
  | .call c args => vmTrigE info c || vmTrigArgs info args
  | .objectE props => vmTrigOProps info props
  | .arrayE es => vmTrigArgs info es
  | .arrow _ b => vmTrigE info b
  | .logical _ l r => vmTrigE info l || vmTrigE info r
  | _ => false

/-- Trigger scan over expression lists. -/
def vmTrigArgs (info : ImportInfo) : ExprList → Bool
  | .nil => false
  | .cons e rest => vmTrigE info e || vmTrigArgs info rest

/-- Trigger scan over object properties. -/
def vmTrigOProps (info : ImportInfo) : PropList → Bool
  | .nil => false
  | .cons _ v rest => vmTrigE info v || vmTrigOProps info rest

end

mutual

/-- Does any expression of the body satisfy `g`? -/
def stmtsAnyExpr (g : Expr → Bool) : StmtList → Bool
  | .nil => false
  | .cons s rest => stmtAnyExpr g s || stmtsAnyExpr g rest

/-- Does any expression of the statement satisfy `g`? -/
def stmtAnyExpr (g : Expr → Bool) : Stmt → Bool
  | .importDecl _ _ => false
  | .exprStmt e => g e
  | .varDecl _ e => g e
  | .ifStmt t th el => g t || stmtsAnyExpr g th || stmtsAnyExpr g el
  | .returnStmt e => g e

end

/-- The namespace stage's contribution to `hasModifications`: each
sub-pass is collected on the tree the previous sub-passes produced. -/
def nsTrigProg (info : ImportInfo) (p : StmtList) : Bool :=
  match info.namespaceAlias with
  | none => false
  | some a =>
      stmtsAnyExpr (nscTrigE a) p
      || stmtsAnyExpr (nsmTrigE a) (mapStmtExprs (nscExpr a true) p)
      || stmtsAnyExpr (nsmeTrigE a false)
          (mapStmtExprs (nsmExpr a) (mapStmtExprs (nscExpr a true) p))

/-! ## `addZodImport` and the `transformer` pipeline -/

/-- The injected import `import { z } from "zod/v4"`
(`j.importDeclaration([j.importSpecifier(j.identifier("z"))],
j.literal("zod/v4"))`). -/
def zodImportStmt : Stmt := .importDecl [.named "z" "z"] "zod/v4"

/-- The transformer pipeline in source order, returning the mutated tree
together with the `hasModifications` flag.  `addZodImport` `unshift`s the
zod import as the very first statement whenever `needsZodImport` was set
(which happens exactly when `processImports` removed an import). -/
def transformerCore (p : StmtList) : StmtList × Bool :=
  let pi := processImports p
  let p1 := pi.1
  let info := pi.2.1
  let removed := pi.2.2
  let p2 := mapStmtExprs markExpr p1
  let p3 := mapStmtExprs (standaloneExpr info .generic) p2
  let p4 := mapStmtExprs (ttcExpr info true) p3
  let p5 := mapStmtExprs (tmcExpr info true) p4
  -- transformStaticToInfer only rewrites type annotations (not modelled)
  let p6 := transformNamespaceImports info p5
  let p7 := mapStmtExprs (vmExpr info true) p6
  let flag := removed
    || stmtsAnyExpr (standaloneTrigE info .generic) p2
    || stmtsAnyExpr (ttcTrigE info) p3
    || stmtsAnyExpr (tmcTrigE info) p4
    || nsTrigProg info p5
    || stmtsAnyExpr (vmTrigE info) p6
  let p8 := if removed then .cons zodImportStmt p7 else p7
  (p8, flag)

/-- `transformer` of `src/src/transform.ts`:
`hasModifications ? root.toSource() : file.source` — the mutated tree is
returned only when the flag was set, otherwise the input is returned
verbatim. -/
def transformer (p : StmtList) : StmtList :=
  let r := transformerCore p
  if r.2 then r.1 else p

/-! ## The variant transformer of `src/unnamed/part_013`
(`transformRuntypeToZod` and helpers)

Only the parts the claims need: `transformArgument`,
`processObjectProperties` and the `Record` dispatch of
`transformRuntypeToZod` for the non-namespaced form (its lines 430–466).
There `newCallee` was built once at the top of the `forEach` as
`j.memberExpression(j.identifier("z"), j.identifier(typeMapping[runtypeKey]))`
with `typeMapping["Record"] = "object"` — so the two-argument branch,
despite its own comment `Record(KeyType, ValueType) ->
z.record(z.keyType(), z.valueType())`, emits `z.object(...)`. -/

namespace Variant

/-- The local `typeMapping` of `transformArgument` and
`processObjectProperties` in `part_013` (primitives only). -/
def argMapping : String → Option String
  | "String" => some ("string")
  | "Number" => some ("number")
  | "Boolean" => some ("boolean")
  | _ => none

/-- `transformArgument` of `part_013`: bare primitives (unless recorded
as JavaScript casts) and namespace-qualified primitives become
`z.<primitive>()`; anything else is returned unchanged. -/
def transformArgument (namespaces jsCastNodes : List String) (arg : Expr) :
    Expr :=
  match arg with
  | .evar i =>
      match argMapping i.name with
      | some m =>
          if !jsCastNodes.contains i.name then zCall m else .evar i
      | none => .evar i
  | .member (.evar oi) q =>
      match argMapping q.name with
      | some m =>
          if namespaces.contains oi.name then zCall m
          else .member (.evar oi) q
      | none => .member (.evar oi) q
  | e => e

/-- `processObjectProperties` of `part_013`.  The two `Optional`
branches of the source are dead code (the earlier
`prop.value.type === "CallExpression"` arm catches every call first), so
call-valued properties are kept for the later passes. -/
def processObjectProperties (namespaces jsCastNodes : List String) :
    PropList → PropList
  | .nil => .nil
  | .cons k (.evar i) rest =>
      let value :=
        match argMapping i.name with
        | some m =>
            if !jsCastNodes.contains i.name then zCall m else Expr.evar i
        | none => Expr.evar i
      .cons k value (processObjectProperties namespaces jsCastNodes rest)
  | .cons k (.member (.evar oi) q) rest =>
      let value :=
        if namespaces.contains oi.name then
          match argMapping q.name with
          | some m => zCall m
          | none => Expr.member (.evar oi) q
        else Expr.member (.evar oi) q
      .cons k value (processObjectProperties namespaces jsCastNodes rest)
  | .cons k v rest =>
      .cons k v (processObjectProperties namespaces jsCastNodes rest)

/-- The `Record` dispatch of `transformRuntypeToZod` (`part_013` lines
430–466) for a call `Record(args)` in the named-import form.
`newCallee` is `z.object` (from `typeMapping["Record"]`); a sole
object-literal argument becomes `z.object({...})` with processed
properties, a two-argument call becomes `newCallee(key', value')` —
i.e. `z.object(...)`, not `z.record(...)` — and any other arity is left
without a replacement. -/
def transformRuntypeToZodRecordCall (namespaces jsCastNodes : List String)
    (args : ExprList) : Expr :=
  match args with
  | .cons (.objectE props) .nil =>
      .call (.member (idE "z") ⟨"object", false⟩)
        (.cons (.objectE (processObjectProperties namespaces jsCastNodes props))
          .nil)
  | .cons keyType (.cons valueType .nil) =>
      .call (.member (idE "z") ⟨"object", false⟩)
        (.cons (transformArgument namespaces jsCastNodes keyType)
          (.cons (transformArgument namespaces jsCastNodes valueType) .nil))
  | other => .call (idE "Record") other

/-- What the spec (and the source's own inline comment) say the
two-argument branch should produce: the keyed-map constructor
`z.record(key', value')` with both arguments recursively rewritten.
This definition follows the spec's words, for comparison with the
implementation above. -/
def specRecordDictionary (namespaces jsCastNodes : List String)
    (keyType valueType : Expr) : Expr :=
  .call (.member (idE "z") ⟨"record", false⟩)
    (.cons (transformArgument namespaces jsCastNodes keyType)
      (.cons (transformArgument namespaces jsCastNodes valueType) .nil))

end Variant

/-! # Theorems

## Host-pure expressions

`hostPureE` captures expressions built purely from host-language
material: no identifier is a `typeMapping` key (this includes the four
builtin names and `Symbol`) and no member property is a `typeMapping` or
`methodMapping` key (this includes `check`, `guard`, `parse`).  No pass
of the pipeline matches anything inside such an expression. -/

mutual

/-- No source-library token anywhere in the expression. -/
def hostPureE : Expr → Bool
  | .evar i => (typeMapping i.name).isNone
  | .str _ => true
  | .num _ => true
  | .boolL _ => true
  | .call c args => hostPureE c && hostPureL args
  | .member o p =>
      hostPureE o && (typeMapping p.name).isNone
        && (methodMapping p.name).isNone
  | .objectE props => hostPureP props
  | .arrayE es => hostPureL es
  | .arrow _ b => hostPureE b
  | .logical _ l r => hostPureE l && hostPureE r

/-- `hostPureE` on every element. -/
def hostPureL : ExprList → Bool
  | .nil => true
  | .cons e rest => hostPureE e && hostPureL rest

/-- `hostPureE` on every property value. -/
def hostPureP : PropList → Bool
  | .nil => true
  | .cons _ v rest => hostPureE v && hostPureP rest

end

/-- The symbol alias is absent or the unaliased `Symbol` (set when
`import { Symbol } from "runtypes"` appears); an aliased symbol import
would let `replaceWithZodType` rewrite arbitrary identifier names. -/
def symTame (info : ImportInfo) : Prop :=
  info.symbolAlias = none ∨ info.symbolAlias = some "Symbol"

/-- Every builtin name is a `typeMapping` key. -/
theorem builtin_isSome {n : String} (h : jsBuiltinNames.contains n = true) :
    (typeMapping n).isSome := by
  simp [jsBuiltinNames] at h
  rcases h with rfl | rfl | rfl | rfl <;> rfl

/-- Every validation-method name is a `methodMapping` key. -/
theorem validation_isSome {n : String}
    (h : (["check", "guard", "parse"] : List String).contains n = true) :
    (methodMapping n).isSome := by
  simp at h
  rcases h with rfl | rfl | rfl <;> rfl

mutual

/-- `transformStandaloneTypeIdentifiers` does not touch host-pure
expressions (in any identifier context). -/
theorem standalone_fixE (info : ImportInfo) (hsym : symTame info) :
    (e : Expr) → hostPureE e = true → (ctx : ECtx) →
      standaloneExpr info ctx e = e
  | .evar i, h, ctx => by
      simp [hostPureE] at h
      have hsa : ¬(info.symbolAlias = some i.name) := by
        rcases hsym with h1 | h1 <;> simp [h1]
        intro hn
        rw [← hn] at h
        simp [typeMapping] at h
      simp [standaloneExpr, h, hsa]
  | .str s, _, _ => by simp [standaloneExpr]
  | .num n, _, _ => by simp [standaloneExpr]
  | .boolL b, _, _ => by simp [standaloneExpr]
  | .call c args, h, ctx => by
      simp [hostPureE] at h
      simp [standaloneExpr, standalone_fixE info hsym c h.1,
        standalone_fixL info hsym (isFilterCallee c) args h.2]
  | .member o p, h, ctx => by
      simp [hostPureE] at h
      obtain ⟨⟨h1, _⟩, _⟩ := h
      simp [standaloneExpr, standalone_fixE info hsym o h1]
  | .objectE props, h, ctx => by
      simp [hostPureE] at h
      simp [standaloneExpr, standalone_fixP info hsym props h]
  | .arrayE es, h, ctx => by
      simp [hostPureE] at h
      simp [standaloneExpr, standalone_fixElems info hsym es h]
  | .arrow ps b, h, ctx => by
      simp [hostPureE] at h
      simp [standaloneExpr, standalone_fixE info hsym b h .generic]
  | .logical op l r, h, ctx => by
      simp [hostPureE] at h
      simp [standaloneExpr, standalone_fixE info hsym l h.1 .generic,
        standalone_fixE info hsym r h.2 .generic]

/-- Argument lists. -/
theorem standalone_fixL (info : ImportInfo) (hsym : symTame info)
    (fc : Bool) : (l : ExprList) → hostPureL l = true →
      standaloneArgs info fc l = l
  | .nil, _ => by simp [standaloneArgs]
  | .cons a rest, h => by
      simp [hostPureL] at h
      simp [standaloneArgs, standalone_fixE info hsym a h.1 (.callArg fc),
        standalone_fixL info hsym fc rest h.2]

/-- Array elements. -/
theorem standalone_fixElems (info : ImportInfo) (hsym : symTame info) :
    (l : ExprList) → hostPureL l = true → standaloneElems info l = l
  | .nil, _ => by simp [standaloneElems]
  | .cons a rest, h => by
      simp [hostPureL] at h
      simp [standaloneElems, standalone_fixE info hsym a h.1 .generic,
        standalone_fixElems info hsym rest h.2]

/-- Property values. -/
theorem standalone_fixP (info : ImportInfo) (hsym : symTame info) :
    (l : PropList) → hostPureP l = true → standaloneOProps info l = l
  | .nil, _ => by simp [standaloneOProps]
  | .cons k v rest, h => by
      simp [hostPureP] at h
      simp [standaloneOProps, standalone_fixE info hsym v h.1 .generic,
        standalone_fixP info hsym rest h.2]

end

/-- A host-pure identifier is not builtin-named. -/
theorem hostPure_not_builtin {n : String} (h : typeMapping n = none) :
    n ∉ jsBuiltinNames := by
  intro hc
  have := builtin_isSome (n := n) (by simpa using hc)
  simp [h] at this

mutual

/-- `markJsBuiltins` does not touch host-pure expressions. -/
theorem mark_fixE : (e : Expr) → hostPureE e = true → markExpr e = e
  | .evar i, _ => by simp [markExpr]
  | .str s, _ => by simp [markExpr]
  | .num n, _ => by simp [markExpr]
  | .boolL b, _ => by simp [markExpr]
  | .call c args, h => by
      simp [hostPureE] at h
      have hc : markCallee c = c := mark_fixCallee c h.1
      simp [markExpr, hc, mark_fixArgs args h.2]
  | .member o p, h => by
      simp [hostPureE] at h
      obtain ⟨⟨h1, h2⟩, _⟩ := h
      have hp : markProp p = p := by
        simp [markProp, hostPure_not_builtin h2]
      simp [markExpr, mark_fixE o h1, hp]
  | .objectE props, h => by
      simp [hostPureE] at h
      simp [markExpr, mark_fixP props h]
  | .arrayE es, h => by
      simp [hostPureE] at h
      simp [markExpr, mark_fixElems es h]
  | .arrow ps b, h => by
      simp [hostPureE] at h
      simp [markExpr, mark_fixE b h]
  | .logical op l r, h => by
      simp [hostPureE] at h
      simp [markExpr, mark_fixE l h.1, mark_fixE r h.2]

/-- Callee position. -/
theorem mark_fixCallee : (e : Expr) → hostPureE e = true → markCallee e = e
  | .evar i, h => by
      simp [hostPureE] at h
      simp [markCallee, hostPure_not_builtin h]
  | .str s, h => by simp [markCallee, markExpr]
  | .num n, h => by simp [markCallee, markExpr]
  | .boolL b, h => by simp [markCallee, markExpr]
  | .call c args, h => by
      simp only [markCallee]
      exact mark_fixE _ h
  | .member o p, h => by
      simp only [markCallee]
      exact mark_fixE _ h
  | .objectE props, h => by
      simp only [markCallee]
      exact mark_fixE _ h
  | .arrayE es, h => by
      simp only [markCallee]
      exact mark_fixE _ h
  | .arrow ps b, h => by
      simp only [markCallee]
      exact mark_fixE _ h
  | .logical op l r, h => by
      simp only [markCallee]
      exact mark_fixE _ h

/-- Argument position. -/
theorem mark_fixArgs : (l : ExprList) → hostPureL l = true → markArgs l = l
  | .nil, _ => by simp [markArgs]
  | .cons a rest, h => by
      simp [hostPureL] at h
      have ha : markArg a = a := mark_fixArg a h.1
      simp [markArgs, ha, mark_fixArgs rest h.2]

/-- One argument. -/
theorem mark_fixArg : (e : Expr) → hostPureE e = true → markArg e = e
  | .evar i, h => by
      simp [hostPureE] at h
      simp [markArg, hostPure_not_builtin h]
  | .str s, h => by simp [markArg, markExpr]
  | .num n, h => by simp [markArg, markExpr]
  | .boolL b, h => by simp [markArg, markExpr]
  | .call c args, h => by
      simp only [markArg]
      exact mark_fixE _ h
  | .member o p, h => by
      simp only [markArg]
      exact mark_fixE _ h
  | .objectE props, h => by
      simp only [markArg]
      exact mark_fixE _ h
  | .arrayE es, h => by
      simp only [markArg]
      exact mark_fixE _ h
  | .arrow ps b, h => by
      simp only [markArg]
      exact mark_fixE _ h
  | .logical op l r, h => by
      simp only [markArg]
      exact mark_fixE _ h

/-- Array elements. -/
theorem mark_fixElems : (l : ExprList) → hostPureL l = true → markElems l = l
  | .nil, _ => by simp [markElems]
  | .cons a rest, h => by
      simp [hostPureL] at h
      simp [markElems, mark_fixE a h.1, mark_fixElems rest h.2]

/-- Property values. -/
theorem mark_fixP : (l : PropList) → hostPureP l = true → markOProps l = l
  | .nil, _ => by simp [markOProps]
  | .cons k v rest, h => by
      simp [hostPureP] at h
      simp [markOProps, mark_fixE v h.1, mark_fixP rest h.2]

end

mutual

/-- `transformTypeCallExpressions` does not touch host-pure expressions
(for either container-liveness value).  A host-pure callee is never a
`typeMapping` key, so no call is collected. -/
theorem ttc_fixE (info : ImportInfo) :
    (e : Expr) → hostPureE e = true → (live : Bool) →
      ttcExpr info live e = e
  | .evar i, _, _ => by simp [ttcExpr]
  | .str s, _, _ => by simp [ttcExpr]
  | .num n, _, _ => by simp [ttcExpr]
  | .boolL b, _, _ => by simp [ttcExpr]
  | .call (.evar i2) args, h, live => by
      simp [hostPureE] at h
      have hn : typeMapping i2.name = none := h.1
      have hskip : ttcSkipBuiltin info i2 args = false := by
        simp [ttcSkipBuiltin, hostPure_not_builtin hn]
      simp [ttcExpr, hskip, hn, ttc_fixL info args h.2]
  | .call (.str s) args, h, live => by
      simp [hostPureE] at h
      simp [ttcExpr, ttc_fixE info (.str s) (by simp [hostPureE] <;> tauto) true,
        ttc_fixL info args (by tauto)]
  | .call (.num n) args, h, live => by
      simp [hostPureE] at h
      simp [ttcExpr, ttc_fixE info (.num n) (by simp [hostPureE] <;> tauto) true,
        ttc_fixL info args (by tauto)]
  | .call (.boolL b) args, h, live => by
      simp [hostPureE] at h
      simp [ttcExpr, ttc_fixE info (.boolL b) (by simp [hostPureE] <;> tauto) true,
        ttc_fixL info args (by tauto)]
  | .call (.call c2 a2) args, h, live => by
      simp [hostPureE] at h
      simp [ttcExpr, ttc_fixE info (.call c2 a2) (by simp [hostPureE] <;> tauto) true,
        ttc_fixL info args (by tauto)]
  | .call (.member o p) args, h, live => by
      simp [hostPureE] at h
      simp [ttcExpr, ttc_fixE info (.member o p) (by simp [hostPureE] <;> tauto) true,
        ttc_fixL info args (by tauto)]
  | .call (.objectE props) args, h, live => by
      simp [hostPureE] at h
      simp [ttcExpr, ttc_fixE info (.objectE props) (by simp [hostPureE] <;> tauto) true,
        ttc_fixL info args (by tauto)]
  | .call (.arrayE es) args, h, live => by
      simp [hostPureE] at h
      simp [ttcExpr, ttc_fixE info (.arrayE es) (by simp [hostPureE] <;> tauto) true,
        ttc_fixL info args (by tauto)]
  | .call (.arrow ps b) args, h, live => by
      simp [hostPureE] at h
      simp [ttcExpr, ttc_fixE info (.arrow ps b) (by simp [hostPureE] <;> tauto) true,
        ttc_fixL info args (by tauto)]
  | .call (.logical op l r) args, h, live => by
      simp [hostPureE] at h
      simp [ttcExpr, ttc_fixE info (.logical op l r) (by simp [hostPureE] <;> tauto) true,
        ttc_fixL info args (by tauto)]
  | .member o p, h, live => by
      simp [hostPureE] at h
      have h1 : hostPureE o = true := by tauto
      simp [ttcExpr, ttc_fixE info o h1 true]
  | .objectE props, h, live => by
      simp [hostPureE] at h
      simp [ttcExpr, ttc_fixP info props h]
  | .arrayE es, h, live => by
      simp [hostPureE] at h
      simp [ttcExpr, ttc_fixL info es h]
  | .arrow ps b, h, live => by
      simp [hostPureE] at h
      simp [ttcExpr, ttc_fixE info b h true]
  | .logical op l r, h, live => by
      simp [hostPureE] at h
      simp [ttcExpr, ttc_fixE info l h.1 true, ttc_fixE info r h.2 true]

/-- Live argument lists. -/
theorem ttc_fixL (info : ImportInfo) :
    (l : ExprList) → hostPureL l = true → ttcArgsLive info l = l
  | .nil, _ => by simp [ttcArgsLive]
  | .cons a rest, h => by
      simp [hostPureL] at h
      simp [ttcArgsLive, ttc_fixE info a h.1 true, ttc_fixL info rest h.2]

/-- Property values. -/
theorem ttc_fixP (info : ImportInfo) :
    (l : PropList) → hostPureP l = true → ttcOProps info l = l
  | .nil, _ => by simp [ttcOProps]
  | .cons k v rest, h => by
      simp [hostPureP] at h
      simp [ttcOProps, ttc_fixE info v h.1 true, ttc_fixP info rest h.2]

end

mutual

/-- `transformMethodCalls` does not touch host-pure expressions (no
member property is a `methodMapping` key). -/
theorem tmc_fixE (info : ImportInfo) :
    (e : Expr) → hostPureE e = true → (live : Bool) →
      tmcExpr info live e = e
  | .evar i, _, _ => by simp [tmcExpr]
  | .str s, _, _ => by simp [tmcExpr]
  | .num n, _, _ => by simp [tmcExpr]
  | .boolL b, _, _ => by simp [tmcExpr]
  | .call (.evar i2) args, h, live => by
      simp [hostPureE] at h
      simp [tmcExpr, tmc_fixE info (.evar i2) (by simp [hostPureE]; exact h.1) true,
        tmc_fixL info args h.2]
  | .call (.str s) args, h, live => by
      simp [hostPureE] at h
      simp [tmcExpr, tmc_fixE info (.str s) (by simp [hostPureE] <;> tauto) true,
        tmc_fixL info args (by tauto)]
  | .call (.num n) args, h, live => by
      simp [hostPureE] at h
      simp [tmcExpr, tmc_fixE info (.num n) (by simp [hostPureE] <;> tauto) true,
        tmc_fixL info args (by tauto)]
  | .call (.boolL b) args, h, live => by
      simp [hostPureE] at h
      simp [tmcExpr, tmc_fixE info (.boolL b) (by simp [hostPureE] <;> tauto) true,
        tmc_fixL info args (by tauto)]
  | .call (.call c2 a2) args, h, live => by
      simp [hostPureE] at h
      simp [tmcExpr, tmc_fixE info (.call c2 a2) (by simp [hostPureE] <;> tauto) true,
        tmc_fixL info args (by tauto)]
  | .call (.member o p) args, h, live => by
      simp [hostPureE] at h
      have h1 : hostPureE o = true := by tauto
      have h3 : methodMapping p.name = none := by tauto
      have h4 : hostPureL args = true := by tauto
      simp [tmcExpr, h3, tmcCallM, tmc_fixE info o h1 true,
        tmc_fixL info args h4]
  | .call (.objectE props) args, h, live => by
      simp [hostPureE] at h
      simp [tmcExpr, tmc_fixE info (.objectE props) (by simp [hostPureE] <;> tauto) true,
        tmc_fixL info args (by tauto)]
  | .call (.arrayE es) args, h, live => by
      simp [hostPureE] at h
      simp [tmcExpr, tmc_fixE info (.arrayE es) (by simp [hostPureE] <;> tauto) true,
        tmc_fixL info args (by tauto)]
  | .call (.arrow ps b) args, h, live => by
      simp [hostPureE] at h
      simp [tmcExpr, tmc_fixE info (.arrow ps b) (by simp [hostPureE] <;> tauto) true,
        tmc_fixL info args (by tauto)]
  | .call (.logical op l r) args, h, live => by
      simp [hostPureE] at h
      simp [tmcExpr, tmc_fixE info (.logical op l r) (by simp [hostPureE] <;> tauto) true,
        tmc_fixL info args (by tauto)]
  | .member o p, h, live => by
      simp [hostPureE] at h
      have h1 : hostPureE o = true := by tauto
      simp [tmcExpr, tmc_fixE info o h1 true]
  | .objectE props, h, live => by
      simp [hostPureE] at h
      simp [tmcExpr, tmc_fixP info props h]
  | .arrayE es, h, live => by
      simp [hostPureE] at h
      simp [tmcExpr, tmc_fixL info es h]
  | .arrow ps b, h, live => by
      simp [hostPureE] at h
      simp [tmcExpr, tmc_fixE info b h true]
  | .logical op l r, h, live => by
      simp [hostPureE] at h
      simp [tmcExpr, tmc_fixE info l h.1 true, tmc_fixE info r h.2 true]

/-- Argument lists. -/
theorem tmc_fixL (info : ImportInfo) :
    (l : ExprList) → hostPureL l = true → tmcArgs info l = l
  | .nil, _ => by simp [tmcArgs]
  | .cons a rest, h => by
      simp [hostPureL] at h
      simp [tmcArgs, tmc_fixE info a h.1 true, tmc_fixL info rest h.2]

/-- Property values. -/
theorem tmc_fixP (info : ImportInfo) :
    (l : PropList) → hostPureP l = true → tmcOProps info l = l
  | .nil, _ => by simp [tmcOProps]
  | .cons k v rest, h => by
      simp [hostPureP] at h
      simp [tmcOProps, tmc_fixE info v h.1 true, tmc_fixP info rest h.2]

end

/-- A host-pure member property is not a validation-method name. -/
theorem validation_isSome2 {n : String}
    (h : n = "check" ∨ n = "guard" ∨ n = "parse") :
    (methodMapping n).isSome := by
  rcases h with rfl | rfl | rfl <;> rfl

mutual

/-- `transformValidationMethods` does not touch host-pure expressions
(no member property is `check`, `guard` or `parse`). -/
theorem vm_fixE (info : ImportInfo) :
    (e : Expr) → hostPureE e = true → (live : Bool) →
      vmExpr info live e = e
  | .evar i, _, _ => by simp [vmExpr]
  | .str s, _, _ => by simp [vmExpr]
  | .num n, _, _ => by simp [vmExpr]
  | .boolL b, _, _ => by simp [vmExpr]
  | .call (.evar i2) args, h, live => by
      simp [hostPureE] at h
      simp [vmExpr, vm_fixE info (.evar i2) (by simp [hostPureE]; exact h.1) true,
        vm_fixL info args h.2]
  | .call (.str s) args, h, live => by
      simp [hostPureE] at h
      simp [vmExpr, vm_fixE info (.str s) (by simp [hostPureE] <;> tauto) true,
        vm_fixL info args (by tauto)]
  | .call (.num n) args, h, live => by
      simp [hostPureE] at h
      simp [vmExpr, vm_fixE info (.num n) (by simp [hostPureE] <;> tauto) true,
        vm_fixL info args (by tauto)]
  | .call (.boolL b) args, h, live => by
      simp [hostPureE] at h
      simp [vmExpr, vm_fixE info (.boolL b) (by simp [hostPureE] <;> tauto) true,
        vm_fixL info args (by tauto)]
  | .call (.call c2 a2) args, h, live => by
      simp [hostPureE] at h
      simp [vmExpr, vm_fixE info (.call c2 a2) (by simp [hostPureE] <;> tauto) true,
        vm_fixL info args (by tauto)]
  | .call (.member o p) args, h, live => by
      simp [hostPureE] at h
      have h1 : hostPureE o = true := by tauto
      have h3 : methodMapping p.name = none := by tauto
      have h4 : hostPureL args = true := by tauto
      have hm : vmMatched info o p = false := by
        simp [vmMatched]
        intro hc
        have := validation_isSome (n := p.name) (by simpa using hc)
        simp [h3] at this
      simp [vmExpr, vmCall, hm, vm_fixE info o h1 true, vm_fixL info args h4]
  | .call (.objectE props) args, h, live => by
      simp [hostPureE] at h
      simp [vmExpr, vm_fixE info (.objectE props) (by simp [hostPureE] <;> tauto) true,
        vm_fixL info args (by tauto)]
  | .call (.arrayE es) args, h, live => by
      simp [hostPureE] at h
      simp [vmExpr, vm_fixE info (.arrayE es) (by simp [hostPureE] <;> tauto) true,
        vm_fixL info args (by tauto)]
  | .call (.arrow ps b) args, h, live => by
      simp [hostPureE] at h
      simp [vmExpr, vm_fixE info (.arrow ps b) (by simp [hostPureE] <;> tauto) true,
        vm_fixL info args (by tauto)]
  | .call (.logical op l r) args, h, live => by
      simp [hostPureE] at h
      simp [vmExpr, vm_fixE info (.logical op l r) (by simp [hostPureE] <;> tauto) true,
        vm_fixL info args (by tauto)]
  | .member o p, h, live => by
      simp [hostPureE] at h
      have h1 : hostPureE o = true := by tauto
      have h3 : methodMapping p.name = none := by tauto
      have hm : vmMatched info o p = false := by
        simp [vmMatched]
        intro hc
        have := validation_isSome (n := p.name) (by simpa using hc)
        simp [h3] at this
      simp [vmExpr, vmBareMember, hm, vm_fixE info o h1 true]
  | .objectE props, h, live => by
      simp [hostPureE] at h
      simp [vmExpr, vm_fixP info props h]
  | .arrayE es, h, live => by
      simp [hostPureE] at h
      simp [vmExpr, vm_fixL info es h]
  | .arrow ps b, h, live => by
      simp [hostPureE] at h
      simp [vmExpr, vm_fixE info b h true]
  | .logical op l r, h, live => by
      simp [hostPureE] at h
      simp [vmExpr, vm_fixE info l h.1 true, vm_fixE info r h.2 true]

/-- Argument lists. -/
theorem vm_fixL (info : ImportInfo) :
    (l : ExprList) → hostPureL l = true → vmArgs info l = l
  | .nil, _ => by simp [vmArgs]
  | .cons a rest, h => by
      simp [hostPureL] at h
      simp [vmArgs, vm_fixE info a h.1 true, vm_fixL info rest h.2]

/-- Property values. -/
theorem vm_fixP (info : ImportInfo) :
    (l : PropList) → hostPureP l = true → vmOProps info l = l
  | .nil, _ => by simp [vmOProps]
  | .cons k v rest, h => by
      simp [hostPureP] at h
      simp [vmOProps, vm_fixE info v h.1 true, vm_fixP info rest h.2]

end

/-! ## Statement-level helpers and lemmas -/

/-- Is there an import declaration matching the runtypes test? -/
def hasRuntypesImport : StmtList → Bool
  | .nil => false
  | .cons (.importDecl _ src) rest =>
      isRuntypesImportPath src || hasRuntypesImport rest
  | .cons _ rest => hasRuntypesImport rest

/-- The import declarations of a unit, in order. -/
def importsOf : StmtList → List Stmt
  | .nil => []
  | .cons (.importDecl specs src) rest =>
      .importDecl specs src :: importsOf rest
  | .cons _ rest => importsOf rest

/-- The number of `zod/v4` imports of a unit. -/
def countZodImports : StmtList → Nat
  | .nil => 0
  | .cons (.importDecl specs src) rest =>
      (if src = "zod/v4" then 1 else 0) + countZodImports rest
  | .cons _ rest => countZodImports rest

/-- The first statement of a unit. -/
def stmtsHead : StmtList → Option Stmt
  | .nil => none
  | .cons s _ => some s

mutual

/-- Every expression of the body is host-pure. -/
def hostPureStmts : StmtList → Bool
  | .nil => true
  | .cons s rest => hostPureStmt s && hostPureStmts rest

/-- Every expression of the statement is host-pure. -/
def hostPureStmt : Stmt → Bool
  | .importDecl _ _ => true
  | .exprStmt e => hostPureE e
  | .varDecl _ e => hostPureE e
  | .ifStmt t th el => hostPureE t && hostPureStmts th && hostPureStmts el
  | .returnStmt e => hostPureE e

end

/-- When no import matches, `processImportsGo` is the identity. -/
theorem processImportsGo_no_match :
    (p : StmtList) → hasRuntypesImport p = false →
      (info : ImportInfo) → (ch : Bool) →
        processImportsGo p info ch = (p, info, ch)
  | .nil, _, info, ch => by simp [processImportsGo]
  | .cons (.importDecl specs src) rest, h, info, ch => by
      simp [hasRuntypesImport] at h
      simp [processImportsGo, h.1,
        processImportsGo_no_match rest h.2 info ch]
  | .cons (.exprStmt e) rest, h, info, ch => by
      simp [hasRuntypesImport] at h
      simp [processImportsGo, processImportsGo_no_match rest h info ch]
  | .cons (.varDecl n e) rest, h, info, ch => by
      simp [hasRuntypesImport] at h
      simp [processImportsGo, processImportsGo_no_match rest h info ch]
  | .cons (.ifStmt t th el) rest, h, info, ch => by
      simp [hasRuntypesImport] at h
      simp [processImportsGo, processImportsGo_no_match rest h info ch]
  | .cons (.returnStmt e) rest, h, info, ch => by
      simp [hasRuntypesImport] at h
      simp [processImportsGo, processImportsGo_no_match rest h info ch]

/-- `processImports` leaves no matching import in its output. -/
theorem processImportsGo_clean :
    (p : StmtList) → (info : ImportInfo) → (ch : Bool) →
      hasRuntypesImport (processImportsGo p info ch).1 = false
  | .nil, info, ch => by simp [processImportsGo, hasRuntypesImport]
  | .cons (.importDecl specs src) rest, info, ch => by
      by_cases hs : isRuntypesImportPath src = true
      · simp [processImportsGo, hs, processImportsGo_clean rest]
      · simp at hs
        simp [processImportsGo, hs, hasRuntypesImport,
          processImportsGo_clean rest]
  | .cons (.exprStmt e) rest, info, ch => by
      simp [processImportsGo, hasRuntypesImport, processImportsGo_clean rest]
  | .cons (.varDecl n e) rest, info, ch => by
      simp [processImportsGo, hasRuntypesImport, processImportsGo_clean rest]
  | .cons (.ifStmt t th el) rest, info, ch => by
      simp [processImportsGo, hasRuntypesImport, processImportsGo_clean rest]
  | .cons (.returnStmt e) rest, info, ch => by
      simp [processImportsGo, hasRuntypesImport, processImportsGo_clean rest]

/-- Once the removal flag is set it stays set. -/
theorem processImportsGo_always_true (info : ImportInfo) :
    (p : StmtList) → (processImportsGo p info true).2.2 = true
  | .nil => by simp [processImportsGo]
  | .cons (.importDecl specs src) rest => by
      by_cases hs : isRuntypesImportPath src = true
      · simp [processImportsGo, hs]
        exact processImportsGo_always_true _ rest
      · simp at hs
        simp [processImportsGo, hs, processImportsGo_always_true info rest]
  | .cons (.exprStmt e) rest => by
      simp [processImportsGo, processImportsGo_always_true info rest]
  | .cons (.varDecl n e) rest => by
      simp [processImportsGo, processImportsGo_always_true info rest]
  | .cons (.ifStmt t th el) rest => by
      simp [processImportsGo, processImportsGo_always_true info rest]
  | .cons (.returnStmt e) rest => by
      simp [processImportsGo, processImportsGo_always_true info rest]

/-- When some import matches, `processImportsGo` reports a removal. -/
theorem processImportsGo_removed :
    (p : StmtList) → hasRuntypesImport p = true →
      (info : ImportInfo) → (ch : Bool) →
        (processImportsGo p info ch).2.2 = true
  | .cons (.importDecl specs src) rest, h, info, ch => by
      by_cases hs : isRuntypesImportPath src = true
      · simp [processImportsGo, hs, processImportsGo_always_true _ rest]
      · simp [hasRuntypesImport, hs] at h
        simp at hs
        simp [processImportsGo, hs, processImportsGo_removed rest h info ch]
  | .cons (.exprStmt e) rest, h, info, ch => by
      simp [hasRuntypesImport] at h
      simp [processImportsGo, processImportsGo_removed rest h info ch]
  | .cons (.varDecl n e) rest, h, info, ch => by
      simp [hasRuntypesImport] at h
      simp [processImportsGo, processImportsGo_removed rest h info ch]
  | .cons (.ifStmt t th el) rest, h, info, ch => by
      simp [hasRuntypesImport] at h
      simp [processImportsGo, processImportsGo_removed rest h info ch]
  | .cons (.returnStmt e) rest, h, info, ch => by
      simp [hasRuntypesImport] at h
      simp [processImportsGo, processImportsGo_removed rest h info ch]

/-- Expression passes preserve import declarations (and add none):
the imports of a mapped body are exactly those of the body. -/
theorem importsOf_mapStmtExprs (f : Expr → Expr) :
    (p : StmtList) → importsOf (mapStmtExprs f p) = importsOf p
  | .nil => by simp [mapStmtExprs, importsOf]
  | .cons (.importDecl specs src) rest => by
      simp [mapStmtExprs, mapStmtExpr, importsOf,
        importsOf_mapStmtExprs f rest]
  | .cons (.exprStmt e) rest => by
      simp [mapStmtExprs, mapStmtExpr, importsOf,
        importsOf_mapStmtExprs f rest]
  | .cons (.varDecl n e) rest => by
      simp [mapStmtExprs, mapStmtExpr, importsOf,
        importsOf_mapStmtExprs f rest]
  | .cons (.ifStmt t th el) rest => by
      simp [mapStmtExprs, mapStmtExpr, importsOf,
        importsOf_mapStmtExprs f rest]
  | .cons (.returnStmt e) rest => by
      simp [mapStmtExprs, mapStmtExpr, importsOf,
        importsOf_mapStmtExprs f rest]

/-- The namespace stage preserves import declarations. -/
theorem importsOf_nsStage (info : ImportInfo) (p : StmtList) :
    importsOf (transformNamespaceImports info p) = importsOf p := by
  cases hna : info.namespaceAlias with
  | none => simp [transformNamespaceImports, hna]
  | some a => simp [transformNamespaceImports, hna, importsOf_mapStmtExprs]

/-- Expression passes preserve `hasRuntypesImport`. -/
theorem hasRuntypes_mapStmtExprs (f : Expr → Expr) :
    (p : StmtList) → hasRuntypesImport (mapStmtExprs f p) = hasRuntypesImport p
  | .nil => by simp [mapStmtExprs, hasRuntypesImport]
  | .cons (.importDecl specs src) rest => by
      simp [mapStmtExprs, mapStmtExpr, hasRuntypesImport,
        hasRuntypes_mapStmtExprs f rest]
  | .cons (.exprStmt e) rest => by
      simp [mapStmtExprs, mapStmtExpr, hasRuntypesImport,
        hasRuntypes_mapStmtExprs f rest]
  | .cons (.varDecl n e) rest => by
      simp [mapStmtExprs, mapStmtExpr, hasRuntypesImport,
        hasRuntypes_mapStmtExprs f rest]
  | .cons (.ifStmt t th el) rest => by
      simp [mapStmtExprs, mapStmtExpr, hasRuntypesImport,
        hasRuntypes_mapStmtExprs f rest]
  | .cons (.returnStmt e) rest => by
      simp [mapStmtExprs, mapStmtExpr, hasRuntypesImport,
        hasRuntypes_mapStmtExprs f rest]

/-- The namespace stage preserves `hasRuntypesImport`. -/
theorem hasRuntypes_nsStage (info : ImportInfo) (p : StmtList) :
    hasRuntypesImport (transformNamespaceImports info p) =
      hasRuntypesImport p := by
  cases hna : info.namespaceAlias with
  | none => simp [transformNamespaceImports, hna]
  | some a =>
      simp [transformNamespaceImports, hna, hasRuntypes_mapStmtExprs]

/-- Expression passes preserve the zod-import count. -/
theorem countZod_mapStmtExprs (f : Expr → Expr) :
    (p : StmtList) → countZodImports (mapStmtExprs f p) = countZodImports p
  | .nil => by simp [mapStmtExprs, countZodImports]
  | .cons (.importDecl specs src) rest => by
      simp [mapStmtExprs, mapStmtExpr, countZodImports,
        countZod_mapStmtExprs f rest]
  | .cons (.exprStmt e) rest => by
      simp [mapStmtExprs, mapStmtExpr, countZodImports,
        countZod_mapStmtExprs f rest]
  | .cons (.varDecl n e) rest => by
      simp [mapStmtExprs, mapStmtExpr, countZodImports,
        countZod_mapStmtExprs f rest]
  | .cons (.ifStmt t th el) rest => by
      simp [mapStmtExprs, mapStmtExpr, countZodImports,
        countZod_mapStmtExprs f rest]
  | .cons (.returnStmt e) rest => by
      simp [mapStmtExprs, mapStmtExpr, countZodImports,
        countZod_mapStmtExprs f rest]

/-- The namespace stage preserves the zod-import count. -/
theorem countZod_nsStage (info : ImportInfo) (p : StmtList) :
    countZodImports (transformNamespaceImports info p) = countZodImports p := by
  cases hna : info.namespaceAlias with
  | none => simp [transformNamespaceImports, hna]
  | some a => simp [transformNamespaceImports, hna, countZod_mapStmtExprs]

/-- `processImportsGo` preserves the zod-import count (a removed import
never has source `zod/v4` since that path matches neither test). -/
theorem countZod_processImportsGo :
    (p : StmtList) → (info : ImportInfo) → (ch : Bool) →
      countZodImports (processImportsGo p info ch).1 = countZodImports p
  | .nil, info, ch => by simp [processImportsGo]
  | .cons (.importDecl specs src) rest, info, ch => by
      by_cases hs : isRuntypesImportPath src = true
      · have hz : ¬(src = "zod/v4") := by
          intro hzz
          rw [hzz] at hs
          exact absurd hs (by decide)
        simp [processImportsGo, hs, countZodImports, hz,
          countZod_processImportsGo rest]
      · simp at hs
        simp [processImportsGo, hs, countZodImports,
          countZod_processImportsGo rest]
  | .cons (.exprStmt e) rest, info, ch => by
      simp [processImportsGo, countZodImports, countZod_processImportsGo rest]
  | .cons (.varDecl n e) rest, info, ch => by
      simp [processImportsGo, countZodImports, countZod_processImportsGo rest]
  | .cons (.ifStmt t th el) rest, info, ch => by
      simp [processImportsGo, countZodImports, countZod_processImportsGo rest]
  | .cons (.returnStmt e) rest, info, ch => by
      simp [processImportsGo, countZodImports, countZod_processImportsGo rest]

mutual

/-- A pass whose expression transformation fixes host-pure expressions
fixes host-pure bodies. -/
theorem mapStmtExprs_fix (f : Expr → Expr)
    (hf : ∀ e, hostPureE e = true → f e = e) :
    (p : StmtList) → hostPureStmts p = true → mapStmtExprs f p = p
  | .nil, _ => by simp [mapStmtExprs]
  | .cons s rest, h => by
      simp [hostPureStmts] at h
      simp [mapStmtExprs, mapStmtExpr_fix f hf s h.1,
        mapStmtExprs_fix f hf rest h.2]

/-- Statement version. -/
theorem mapStmtExpr_fix (f : Expr → Expr)
    (hf : ∀ e, hostPureE e = true → f e = e) :
    (s : Stmt) → hostPureStmt s = true → mapStmtExpr f s = s
  | .importDecl specs src, _ => by simp [mapStmtExpr]
  | .exprStmt e, h => by
      simp [hostPureStmt] at h
      simp [mapStmtExpr, hf e h]
  | .varDecl n e, h => by
      simp [hostPureStmt] at h
      simp [mapStmtExpr, hf e h]
  | .ifStmt t th el, h => by
      simp [hostPureStmt] at h
      simp [mapStmtExpr, hf t h.1.1, mapStmtExprs_fix f hf th h.1.2,
        mapStmtExprs_fix f hf el h.2]
  | .returnStmt e, h => by
      simp [hostPureStmt] at h
      simp [mapStmtExpr, hf e h]

end

/-! ## Pipeline-level helpers -/

/-- The injected import path matches neither import test. -/
theorem zod_path_no_match : isRuntypesImportPath "zod/v4" = false := by decide

/-- With a matching import present the `hasModifications` flag is set. -/
theorem transformerCore_flag_of_removed (p : StmtList)
    (h : hasRuntypesImport p = true) : (transformerCore p).2 = true := by
  have hrem : (processImportsGo p emptyInfo false).2.2 = true :=
    processImportsGo_removed p h emptyInfo false
  simp [transformerCore, processImports, hrem]

/-- With a matching import present the transformer returns the mutated
tree. -/
theorem transformer_eq_core (p : StmtList)
    (h : hasRuntypesImport p = true) :
    transformer p = (transformerCore p).1 := by
  simp [transformer, transformerCore_flag_of_removed p h]

/-- With a matching import present, the output starts with the injected
zod import. -/
theorem transformer_removed_head (p : StmtList)
    (h : hasRuntypesImport p = true) :
    stmtsHead (transformer p) = some zodImportStmt := by
  rw [transformer_eq_core p h]
  have hrem : (processImportsGo p emptyInfo false).2.2 = true :=
    processImportsGo_removed p h emptyInfo false
  simp [transformerCore, processImports, hrem, stmtsHead]

/-- With a matching import present, no matching import survives into the
output. -/
theorem transformer_removed_clean (p : StmtList)
    (h : hasRuntypesImport p = true) :
    hasRuntypesImport (transformer p) = false := by
  rw [transformer_eq_core p h]
  have hrem : (processImportsGo p emptyInfo false).2.2 = true :=
    processImportsGo_removed p h emptyInfo false
  simp [transformerCore, processImports, hrem, hasRuntypesImport,
    zodImportStmt, zod_path_no_match, hasRuntypes_mapStmtExprs,
    hasRuntypes_nsStage, processImportsGo_clean]

/-- With a matching import present, exactly one zod import is added. -/
theorem transformer_removed_countZod (p : StmtList)
    (h : hasRuntypesImport p = true) :
    countZodImports (transformer p) = countZodImports p + 1 := by
  rw [transformer_eq_core p h]
  have hrem : (processImportsGo p emptyInfo false).2.2 = true :=
    processImportsGo_removed p h emptyInfo false
  simp [transformerCore, processImports, hrem, countZodImports,
    zodImportStmt, countZod_mapStmtExprs, countZod_nsStage,
    countZod_processImportsGo]
  omega

/-- With no matching import, the pipeline neither removes nor adds
any import declaration. -/
theorem transformerCore_nomatch_imports (p : StmtList)
    (h : hasRuntypesImport p = false) :
    importsOf (transformerCore p).1 = importsOf p := by
  have hpi : processImportsGo p emptyInfo false = (p, emptyInfo, false) :=
    processImportsGo_no_match p h emptyInfo false
  simp [transformerCore, processImports, hpi, importsOf_mapStmtExprs,
    importsOf_nsStage]

/-! ## Claim programs and spec-side comparison definitions -/

/-- Does the unit contain any import declaration at all? -/
def stmtsAnyImport : StmtList → Bool
  | .nil => false
  | .cons (.importDecl _ _) _ => true
  | .cons _ rest => stmtsAnyImport rest

/-- What the spec says about the injected import's position: immediately
after the last pre-existing import statement, or as the first statement
if none exist.  This definition follows the spec's words, for comparison
with `addZodImport`. -/
def insertAfterLastImport (s : Stmt) : StmtList → StmtList
  | .nil => .cons s .nil
  | .cons (.importDecl sp src) rest =>
      if stmtsAnyImport rest then
        .cons (.importDecl sp src) (insertAfterLastImport s rest)
      else .cons (.importDecl sp src) (.cons s rest)
  | .cons st rest =>
      if stmtsAnyImport rest then .cons st (insertAfterLastImport s rest)
      else .cons s (.cons st rest)

mutual

/-- Does the expression contain a member access whose object is the
identifier `a` (a leftover alias-qualified fragment)? -/
def exprHasAliasMember (a : String) : Expr → Bool
  | .evar _ => false
  | .str _ => false
  | .num _ => false
  | .boolL _ => false
  | .call c args => exprHasAliasMember a c || elistHasAliasMember a args
  | .member o _ =>
      (match o with | .evar oi => oi.name == a | _ => false)
      || exprHasAliasMember a o
  | .objectE props => propsHasAliasMember a props
  | .arrayE es => elistHasAliasMember a es
  | .arrow _ b => exprHasAliasMember a b
  | .logical _ l r => exprHasAliasMember a l || exprHasAliasMember a r

/-- List version. -/
def elistHasAliasMember (a : String) : ExprList → Bool
  | .nil => false
  | .cons e rest => exprHasAliasMember a e || elistHasAliasMember a rest

/-- Property-list version. -/
def propsHasAliasMember (a : String) : PropList → Bool
  | .nil => false
  | .cons _ v rest => exprHasAliasMember a v || propsHasAliasMember a rest

end

/-- C2's counterexample unit: no import at all, but a bare `Union(A, B)`
call. -/
def p2c : StmtList :=
  slist [.varDecl "x" (.call (idE "Union") (elist [idE "A", idE "B"]))]

/-- C2's witness unit. -/
def w2 : StmtList :=
  slist [.importDecl [.named "join" "join"] "path",
    .exprStmt (.call (idE "log") (elist [.str "x"]))]

/-- C3's counterexample unit: a union with a nested union argument. -/
def p3 : StmtList := slist [
  .importDecl [.named "Union" "Union", .named "Literal" "Literal"] "runtypes",
  .varDecl "x" (.call (idE "Union") (elist [
    .call (idE "Literal") (elist [.str "a"]),
    .call (idE "Union") (elist [
      .call (idE "Literal") (elist [.str "b"]),
      .call (idE "Literal") (elist [.str "c"])])]))]

/-- C3's witness unit (runtypes-free and host-pure). -/
def w3 : StmtList := slist [.varDecl "greeting" (.str "hi")]

/-- C8's counterexample unit: a non-runtypes import precedes the
runtypes import. -/
def fsImport8 : Stmt := .importDecl [.named "readFile" "readFile"] "fs"

/-- The non-import tail of C8's counterexample unit after rewriting
(`String()` is marked by `markJsBuiltins` and, being builtin-named,
marked and invoked, is left alone by the later passes). -/
def sOut8 : Stmt := .varDecl "s" (.call (.evar ⟨"String", true⟩) .nil)

/-- C8's counterexample unit. -/
def p8c : StmtList := slist [fsImport8,
  .importDecl [.named "String" "String"] "runtypes",
  .varDecl "s" (.call (idE "String") .nil)]

/-- C8's witness unit. -/
def w8 : StmtList := slist [.importDecl [.named "x" "x"] "node:fs",
  .importDecl [.named "Union" "Union"] "runtypes",
  .exprStmt (.num 0)]

/-- C9's counterexample unit: a bare alias-qualified member reference
`t.BigInt` (not a call, not a call argument). -/
def p9 : StmtList := slist [.importDecl [.star "t"] "runtypes",
  .varDecl "x" (.member (idE "t") ⟨"BigInt", false⟩)]

/-- Scenario B's input unit: `import * as t from "runtypes";
const A = t.Array(t.String);`. -/
def pB : StmtList := slist [.importDecl [.star "t"] "runtypes",
  .varDecl "A" (.call (.member (idE "t") ⟨"Array", false⟩)
    (elist [.member (idE "t") ⟨"String", false⟩]))]

/-- C10's witness unit: the matching import is an unrelated package whose
name merely contains the substring `runtypes`. -/
def w10 : StmtList := slist [
  .importDecl [.named "Foo" "Foo"] "my-runtypes-utils",
  .varDecl "y" (.num 1)]

/-! ## Claims C2, C3, C5, C8, C9, C10 -/

set_option maxHeartbeats 4000000 in
/-- C2, counterexample: a unit with no runtypes import (no import at
all) is not returned unchanged — its `Union(A, B)` call is rewritten to
`z.union([A, B])`, because no pass checks that the source library was
ever imported. -/
theorem claim_C2_counterexample :
    hasRuntypesImport p2c = false ∧ transformer p2c ≠ p2c := by
  constructor
  · decide
  · simp [transformer, transformerCore, processImports, processImportsGo,
    isRuntypesImportPath, stringIncludes, charsInclude, charsPre, charsSuffix,
    charsEqL, collectSpecBuiltins, applySpecAliases, emptyInfo, mapStmtExprs,
    mapStmtExpr, markExpr, markCallee, markArgs, markArg, markElems,
    markOProps, markProp, standaloneExpr, standaloneArgs, standaloneElems,
    standaloneOProps, shouldSkipIdentifier, replaceWithZodType, isFilterCallee,
    zCall, ttcExpr, ttcArgsLive, ttcOProps, ttcObjectCall, ttcObjectProps,
    ttcArrayCall, ttcOptionalCall, ttcUnionCall, ttcEnumValues, ttcCtorArgs,
    ttcTupleCall, ttcIntersectCall, ttcSkipBuiltin, unionArgsAllLiterals,
    typeMapping, methodMapping, truthy, parseZodExpression, takeUntilParen,
    jsBuiltinNames, tmcExpr, tmcCallM, tmcWithConstraintArgs, tmcArgs,
    tmcArgsDead, tmcOProps, isLiteralNode, keyOfLit, exprListAllLiterals,
    pickOmitAllLiterals, pickOmitProps, vmExpr, vmCall, vmBareMember, vmArgs,
    vmOProps, vmMatched, transformNamespaceImports, nscExpr, nscArrayCall,
    nscObjectCall, nscObjProps, nscUnionCall, nscEnumValues, nscArgs,
    nscOProps, nsUnionArgsAllLiterals, nsPrimitiveNames, nsCtorNames,
    nsLoweredName, nsmExpr, nsmBareMember, nsmArgs, nsmOProps, nsmMatched,
    nsmNewMethod, nsmeExpr, nsmeArgs, nsmeElems, nsmeOProps, stmtsAnyExpr,
    stmtAnyExpr, nsTrigProg, standaloneTrigE, standaloneTrigElems,
    standaloneTrigOProps, ttcTrigE, ttcTrigArgs, ttcTrigOProps, tmcTrigE,
    tmcTrigArgs, tmcTrigOProps, nscTrigE, nscTrigArgs, nscTrigOProps,
    nsmTrigE, nsmTrigArgs, nsmTrigOProps, nsmeTrigE, nsmeTrigArgs,
    nsmeTrigElems, nsmeTrigOProps, vmTrigE, vmTrigArgs, vmTrigOProps,
    zodImportStmt, idE, elist, slist, p2c]

/-- C2, amended: without a matching import the transformer still
rewrites expressions, but its import structure is untouched — no import
is removed and no zod import is injected. -/
theorem claim_C2 (p : StmtList) (h : hasRuntypesImport p = false) :
    importsOf (transformer p) = importsOf p := by
  by_cases hf : (transformerCore p).2 = true
  · simp [transformer, hf, transformerCore_nomatch_imports p h]
  · simp at hf
    simp [transformer, hf]

/-- C2's witness: the amended theorem at the concrete unit `w2`. -/
theorem claim_C2_witness :
    hasRuntypesImport w2 = false ∧ importsOf (transformer w2) = importsOf w2 :=
  ⟨by decide, claim_C2 w2 (by decide)⟩

set_option maxHeartbeats 12000000 in
/-- C3, counterexample: the transformer is not idempotent.  On
`Union(Literal("a"), Union(Literal("b"), Literal("c")))` the first run's
generic-union `replaceWith` detaches the nested `Union` call's container,
so the nested call survives the first run and is rewritten by the
second. -/
theorem claim_C3_counterexample :
    transformer (transformer p3) ≠ transformer p3 := by
  simp [transformer, transformerCore, processImports, processImportsGo,
    isRuntypesImportPath, stringIncludes, charsInclude, charsPre, charsSuffix,
    charsEqL, collectSpecBuiltins, applySpecAliases, emptyInfo, mapStmtExprs,
    mapStmtExpr, markExpr, markCallee, markArgs, markArg, markElems,
    markOProps, markProp, standaloneExpr, standaloneArgs, standaloneElems,
    standaloneOProps, shouldSkipIdentifier, replaceWithZodType, isFilterCallee,
    zCall, ttcExpr, ttcArgsLive, ttcOProps, ttcObjectCall, ttcObjectProps,
    ttcArrayCall, ttcOptionalCall, ttcUnionCall, ttcEnumValues, ttcCtorArgs,
    ttcTupleCall, ttcIntersectCall, ttcSkipBuiltin, unionArgsAllLiterals,
    typeMapping, methodMapping, truthy, parseZodExpression, takeUntilParen,
    jsBuiltinNames, tmcExpr, tmcCallM, tmcWithConstraintArgs, tmcArgs,
    tmcArgsDead, tmcOProps, isLiteralNode, keyOfLit, exprListAllLiterals,
    pickOmitAllLiterals, pickOmitProps, vmExpr, vmCall, vmBareMember, vmArgs,
    vmOProps, vmMatched, transformNamespaceImports, nscExpr, nscArrayCall,
    nscObjectCall, nscObjProps, nscUnionCall, nscEnumValues, nscArgs,
    nscOProps, nsUnionArgsAllLiterals, nsPrimitiveNames, nsCtorNames,
    nsLoweredName, nsmExpr, nsmBareMember, nsmArgs, nsmOProps, nsmMatched,
    nsmNewMethod, nsmeExpr, nsmeArgs, nsmeElems, nsmeOProps, stmtsAnyExpr,
    stmtAnyExpr, nsTrigProg, standaloneTrigE, standaloneTrigElems,
    standaloneTrigOProps, ttcTrigE, ttcTrigArgs, ttcTrigOProps, tmcTrigE,
    tmcTrigArgs, tmcTrigOProps, nscTrigE, nscTrigArgs, nscTrigOProps,
    nsmTrigE, nsmTrigArgs, nsmTrigOProps, nsmeTrigE, nsmeTrigArgs,
    nsmeTrigElems, nsmeTrigOProps, vmTrigE, vmTrigArgs, vmTrigOProps,
    zodImportStmt, idE, elist, slist, p3]

/-- C3, amended: the transformer is a no-op (hence trivially idempotent)
on units that have no matching import and contain only host-pure
expressions. -/
theorem claim_C3 (p : StmtList) (h1 : hasRuntypesImport p = false)
    (h2 : hostPureStmts p = true) : transformer p = p := by
  have hsym : symTame emptyInfo := Or.inl rfl
  have hpi : processImportsGo p emptyInfo false = (p, emptyInfo, false) :=
    processImportsGo_no_match p h1 emptyInfo false
  have hm : mapStmtExprs markExpr p = p :=
    mapStmtExprs_fix _ mark_fixE p h2
  have hs : mapStmtExprs (standaloneExpr emptyInfo .generic) p = p :=
    mapStmtExprs_fix _
      (fun e he => standalone_fixE emptyInfo hsym e he .generic) p h2
  have ht : mapStmtExprs (ttcExpr emptyInfo true) p = p :=
    mapStmtExprs_fix _ (fun e he => ttc_fixE emptyInfo e he true) p h2
  have htm : mapStmtExprs (tmcExpr emptyInfo true) p = p :=
    mapStmtExprs_fix _ (fun e he => tmc_fixE emptyInfo e he true) p h2
  have hns : transformNamespaceImports emptyInfo p = p := by
    simp [transformNamespaceImports, emptyInfo]
  have hv : mapStmtExprs (vmExpr emptyInfo true) p = p :=
    mapStmtExprs_fix _ (fun e he => vm_fixE emptyInfo e he true) p h2
  simp [transformer, transformerCore, processImports, hpi, hm, hs, ht, htm,
    hns, hv]

/-- C3's witness: the amended theorem at the concrete unit `w3`. -/
theorem claim_C3_witness : transformer w3 = w3 :=
  claim_C3 w3 (by decide)
    (by simp [hostPureStmts, hostPureStmt, hostPureE, w3, slist, typeMapping])

/-- C5: the `Record` dispatch of `part_013` handles the one-argument
field-map form as the claim says, but the two-argument key/value form is
emitted through `newCallee` — which is `z.object` (from
`typeMapping["Record"]`) — so `Record(String, Number)` becomes
`z.object(z.string(), z.number())`, not the `z.record(z.string(),
z.number())` that the claim (and the source's own inline comment)
promise. -/
theorem claim_C5 :
    Variant.transformRuntypeToZodRecordCall [] []
        (elist [idE "String", idE "Number"])
      = .call (.member (idE "z") ⟨"object", false⟩)
          (elist [zCall ("string"), zCall ("number")])
    ∧ Variant.transformRuntypeToZodRecordCall [] []
        (elist [idE "String", idE "Number"])
      ≠ Variant.specRecordDictionary [] [] (idE "String") (idE "Number")
    ∧ Variant.transformRuntypeToZodRecordCall [] []
        (elist [.objectE (.cons "name" (idE "String") .nil)])
      = .call (.member (idE "z") ⟨"object", false⟩)
          (elist [.objectE (.cons "name" (zCall ("string")) .nil)]) := by
  refine ⟨by decide, by decide, by decide⟩

set_option maxHeartbeats 4000000 in
/-- C8, counterexample: `addZodImport` `unshift`s the zod import as the
very first statement, not immediately after the last pre-existing one:
on a unit whose first import is `"fs"`, the output starts with
the zod import ahead of the `"fs"` import, unlike the spec-side
placement. -/
theorem claim_C8_counterexample :
    transformer p8c = slist [zodImportStmt, fsImport8, sOut8]
    ∧ insertAfterLastImport zodImportStmt (slist [fsImport8, sOut8])
      ≠ slist [zodImportStmt, fsImport8, sOut8] := by
  constructor
  · simp [transformer, transformerCore, processImports, processImportsGo,
    isRuntypesImportPath, stringIncludes, charsInclude, charsPre, charsSuffix,
    charsEqL, collectSpecBuiltins, applySpecAliases, emptyInfo, mapStmtExprs,
    mapStmtExpr, markExpr, markCallee, markArgs, markArg, markElems,
    markOProps, markProp, standaloneExpr, standaloneArgs, standaloneElems,
    standaloneOProps, shouldSkipIdentifier, replaceWithZodType, isFilterCallee,
    zCall, ttcExpr, ttcArgsLive, ttcOProps, ttcObjectCall, ttcObjectProps,
    ttcArrayCall, ttcOptionalCall, ttcUnionCall, ttcEnumValues, ttcCtorArgs,
    ttcTupleCall, ttcIntersectCall, ttcSkipBuiltin, unionArgsAllLiterals,
    typeMapping, methodMapping, truthy, parseZodExpression, takeUntilParen,
    jsBuiltinNames, tmcExpr, tmcCallM, tmcWithConstraintArgs, tmcArgs,
    tmcArgsDead, tmcOProps, isLiteralNode, keyOfLit, exprListAllLiterals,
    pickOmitAllLiterals, pickOmitProps, vmExpr, vmCall, vmBareMember, vmArgs,
    vmOProps, vmMatched, transformNamespaceImports, nscExpr, nscArrayCall,
    nscObjectCall, nscObjProps, nscUnionCall, nscEnumValues, nscArgs,
    nscOProps, nsUnionArgsAllLiterals, nsPrimitiveNames, nsCtorNames,
    nsLoweredName, nsmExpr, nsmBareMember, nsmArgs, nsmOProps, nsmMatched,
    nsmNewMethod, nsmeExpr, nsmeArgs, nsmeElems, nsmeOProps, stmtsAnyExpr,
    stmtAnyExpr, nsTrigProg, standaloneTrigE, standaloneTrigElems,
    standaloneTrigOProps, ttcTrigE, ttcTrigArgs, ttcTrigOProps, tmcTrigE,
    tmcTrigArgs, tmcTrigOProps, nscTrigE, nscTrigArgs, nscTrigOProps,
    nsmTrigE, nsmTrigArgs, nsmTrigOProps, nsmeTrigE, nsmeTrigArgs,
    nsmeTrigElems, nsmeTrigOProps, vmTrigE, vmTrigArgs, vmTrigOProps,
    zodImportStmt, idE, elist, slist, p8c, fsImport8, sOut8]
  · decide

/-- C8, amended: whenever a matching import was removed, exactly one
zod import is inserted and it is the *first* statement of the unit —
unconditionally, with no check for a pre-existing zod import. -/
theorem claim_C8 (p : StmtList) (h : hasRuntypesImport p = true) :
    stmtsHead (transformer p) = some zodImportStmt
    ∧ countZodImports (transformer p) = countZodImports p + 1 :=
  ⟨transformer_removed_head p h, transformer_removed_countZod p h⟩

/-- C8's witness: the amended theorem at the concrete unit `w8`. -/
theorem claim_C8_witness :
    hasRuntypesImport w8 = true
    ∧ (stmtsHead (transformer w8) = some zodImportStmt
        ∧ countZodImports (transformer w8) = countZodImports w8 + 1) :=
  ⟨by decide, claim_C8 w8 (by decide)⟩

set_option maxHeartbeats 4000000 in
/-- C9, counterexample: with a namespace import, the bare member
reference `t.BigInt` (whose property is a `typeMapping` key but is in
neither special list of `transformNamespaceMemberExpressions`, and is
not a call argument) survives every pass, so the output still contains
an alias-qualified fragment — while the `t` import itself was removed. -/
theorem claim_C9_counterexample :
    transformer p9
      = slist [zodImportStmt,
          .varDecl "x" (.member (idE "t") ⟨"BigInt", false⟩)]
    ∧ stmtsAnyExpr (exprHasAliasMember "t") (transformer p9) = true := by
  have h1 : transformer p9
      = slist [zodImportStmt,
          .varDecl "x" (.member (idE "t") ⟨"BigInt", false⟩)] := by
    simp [transformer, transformerCore, processImports, processImportsGo,
    isRuntypesImportPath, stringIncludes, charsInclude, charsPre, charsSuffix,
    charsEqL, collectSpecBuiltins, applySpecAliases, emptyInfo, mapStmtExprs,
    mapStmtExpr, markExpr, markCallee, markArgs, markArg, markElems,
    markOProps, markProp, standaloneExpr, standaloneArgs, standaloneElems,
    standaloneOProps, shouldSkipIdentifier, replaceWithZodType, isFilterCallee,
    zCall, ttcExpr, ttcArgsLive, ttcOProps, ttcObjectCall, ttcObjectProps,
    ttcArrayCall, ttcOptionalCall, ttcUnionCall, ttcEnumValues, ttcCtorArgs,
    ttcTupleCall, ttcIntersectCall, ttcSkipBuiltin, unionArgsAllLiterals,
    typeMapping, methodMapping, truthy, parseZodExpression, takeUntilParen,
    jsBuiltinNames, tmcExpr, tmcCallM, tmcWithConstraintArgs, tmcArgs,
    tmcArgsDead, tmcOProps, isLiteralNode, keyOfLit, exprListAllLiterals,
    pickOmitAllLiterals, pickOmitProps, vmExpr, vmCall, vmBareMember, vmArgs,
    vmOProps, vmMatched, transformNamespaceImports, nscExpr, nscArrayCall,
    nscObjectCall, nscObjProps, nscUnionCall, nscEnumValues, nscArgs,
    nscOProps, nsUnionArgsAllLiterals, nsPrimitiveNames, nsCtorNames,
    nsLoweredName, nsmExpr, nsmBareMember, nsmArgs, nsmOProps, nsmMatched,
    nsmNewMethod, nsmeExpr, nsmeArgs, nsmeElems, nsmeOProps, stmtsAnyExpr,
    stmtAnyExpr, nsTrigProg, standaloneTrigE, standaloneTrigElems,
    standaloneTrigOProps, ttcTrigE, ttcTrigArgs, ttcTrigOProps, tmcTrigE,
    tmcTrigArgs, tmcTrigOProps, nscTrigE, nscTrigArgs, nscTrigOProps,
    nsmTrigE, nsmTrigArgs, nsmTrigOProps, nsmeTrigE, nsmeTrigArgs,
    nsmeTrigElems, nsmeTrigOProps, vmTrigE, vmTrigArgs, vmTrigOProps,
    zodImportStmt, idE, elist, slist, p9]
  refine ⟨h1, ?_⟩
  rw [h1]
  simp [stmtsAnyExpr, stmtAnyExpr, exprHasAliasMember, zodImportStmt, slist,
    idE]

set_option maxHeartbeats 4000000 in
/-- C9, amended (scenario B): on `import * as t from "runtypes";
const A = t.Array(t.String);` the transformer does produce
`import { z } from "zod/v4"; const A = z.array(z.string());` with no
leftover `t.` fragment. -/
theorem claim_C9 :
    transformer pB
      = slist [zodImportStmt,
          .varDecl "A" (.call (.member (idE "z") ⟨"array", false⟩)
            (elist [zCall ("string")]))]
    ∧ stmtsAnyExpr (exprHasAliasMember "t") (transformer pB) = false := by
  have h1 : transformer pB
      = slist [zodImportStmt,
          .varDecl "A" (.call (.member (idE "z") ⟨"array", false⟩)
            (elist [zCall ("string")]))] := by
    simp [transformer, transformerCore, processImports, processImportsGo,
    isRuntypesImportPath, stringIncludes, charsInclude, charsPre, charsSuffix,
    charsEqL, collectSpecBuiltins, applySpecAliases, emptyInfo, mapStmtExprs,
    mapStmtExpr, markExpr, markCallee, markArgs, markArg, markElems,
    markOProps, markProp, standaloneExpr, standaloneArgs, standaloneElems,
    standaloneOProps, shouldSkipIdentifier, replaceWithZodType, isFilterCallee,
    zCall, ttcExpr, ttcArgsLive, ttcOProps, ttcObjectCall, ttcObjectProps,
    ttcArrayCall, ttcOptionalCall, ttcUnionCall, ttcEnumValues, ttcCtorArgs,
    ttcTupleCall, ttcIntersectCall, ttcSkipBuiltin, unionArgsAllLiterals,
    typeMapping, methodMapping, truthy, parseZodExpression, takeUntilParen,
    jsBuiltinNames, tmcExpr, tmcCallM, tmcWithConstraintArgs, tmcArgs,
    tmcArgsDead, tmcOProps, isLiteralNode, keyOfLit, exprListAllLiterals,
    pickOmitAllLiterals, pickOmitProps, vmExpr, vmCall, vmBareMember, vmArgs,
    vmOProps, vmMatched, transformNamespaceImports, nscExpr, nscArrayCall,
    nscObjectCall, nscObjProps, nscUnionCall, nscEnumValues, nscArgs,
    nscOProps, nsUnionArgsAllLiterals, nsPrimitiveNames, nsCtorNames,
    nsLoweredName, nsmExpr, nsmBareMember, nsmArgs, nsmOProps, nsmMatched,
    nsmNewMethod, nsmeExpr, nsmeArgs, nsmeElems, nsmeOProps, stmtsAnyExpr,
    stmtAnyExpr, nsTrigProg, standaloneTrigE, standaloneTrigElems,
    standaloneTrigOProps, ttcTrigE, ttcTrigArgs, ttcTrigOProps, tmcTrigE,
    tmcTrigArgs, tmcTrigOProps, nscTrigE, nscTrigArgs, nscTrigOProps,
    nsmTrigE, nsmTrigArgs, nsmTrigOProps, nsmeTrigE, nsmeTrigArgs,
    nsmeTrigElems, nsmeTrigOProps, vmTrigE, vmTrigArgs, vmTrigOProps,
    zodImportStmt, idE, elist, slist, pB]
  refine ⟨h1, ?_⟩
  rw [h1]
  simp [stmtsAnyExpr, stmtAnyExpr, exprHasAliasMember, elistHasAliasMember,
    zodImportStmt, slist, elist, idE, zCall]

/-- C10: the import matcher is substring/suffix based — any import whose
path contains `runtypes` (such as `my-runtypes-utils`) or ends in
`/index.ts` is removed, the unit is marked modified, and a zod import is
injected at the front. -/
theorem claim_C10 (p : StmtList) (h : hasRuntypesImport p = true) :
    hasRuntypesImport (transformer p) = false
    ∧ stmtsHead (transformer p) = some zodImportStmt :=
  ⟨transformer_removed_clean p h, transformer_removed_head p h⟩

/-- C10's witness: the theorem at a unit importing the unrelated package
`my-runtypes-utils`. -/
theorem claim_C10_witness :
    hasRuntypesImport w10 = true
    ∧ (hasRuntypesImport (transformer w10) = false
        ∧ stmtsHead (transformer w10) = some zodImportStmt) :=
  ⟨by decide, claim_C10 w10 (by decide)⟩

/-! ## Claim C6: the union paths of `transformTypeCallExpressions` -/

/-- The per-argument mapping of the generic union path (the `let` of
`ttcCtorArgs`, extracted as a named function to state order
preservation). -/
def ttcUnionArgMap (info : ImportInfo) : Expr → Expr
  | .evar v =>
      if truthy (typeMapping v.name) then
        parseZodExpression ((typeMapping v.name).getD "")
      else .evar v
  | e => ttcExpr info false e

/-- A list of `Literal("s")` calls passes the `allLiterals` test. -/
theorem unionArgsAllLiterals_map :
    (l : List String) →
      unionArgsAllLiterals (elist (l.map fun s =>
        Expr.call (.evar ⟨"Literal", false⟩) (.cons (.str s) .nil))) = true
  | [] => by simp [elist, unionArgsAllLiterals]
  | s :: rest => by
      simp [elist, unionArgsAllLiterals, unionArgsAllLiterals_map rest]

/-- The enum-value extraction on a list of `Literal("s")` calls yields
the raw string literals in order. -/
theorem ttcEnumValues_map (info : ImportInfo) :
    (l : List String) →
      ttcEnumValues info (elist (l.map fun s =>
          Expr.call (.evar ⟨"Literal", false⟩) (.cons (.str s) .nil)))
        = elist (l.map Expr.str)
  | [] => by simp [elist, ttcEnumValues]
  | s :: rest => by
      simp [elist, ttcEnumValues, ttcExpr, ttcEnumValues_map info rest]

/-- `ttcCtorArgs` is the element-wise map `ttcUnionArgMap`, in order. -/
theorem ttcCtorArgs_map (info : ImportInfo) :
    (l : List Expr) →
      ttcCtorArgs info (elist l) = elist (l.map (ttcUnionArgMap info))
  | [] => by simp [elist, ttcCtorArgs]
  | .evar v :: rest => by
      simp [elist, ttcCtorArgs, ttcUnionArgMap, ttcCtorArgs_map info rest]
  | .str s :: rest => by
      simp [elist, ttcCtorArgs, ttcUnionArgMap, ttcCtorArgs_map info rest]
  | .num n :: rest => by
      simp [elist, ttcCtorArgs, ttcUnionArgMap, ttcCtorArgs_map info rest]
  | .boolL b :: rest => by
      simp [elist, ttcCtorArgs, ttcUnionArgMap, ttcCtorArgs_map info rest]
  | .call c args :: rest => by
      simp [elist, ttcCtorArgs, ttcUnionArgMap, ttcCtorArgs_map info rest]
  | .member o p :: rest => by
      simp [elist, ttcCtorArgs, ttcUnionArgMap, ttcCtorArgs_map info rest]
  | .objectE props :: rest => by
      simp [elist, ttcCtorArgs, ttcUnionArgMap, ttcCtorArgs_map info rest]
  | .arrayE es :: rest => by
      simp [elist, ttcCtorArgs, ttcUnionArgMap, ttcCtorArgs_map info rest]
  | .arrow ps b :: rest => by
      simp [elist, ttcCtorArgs, ttcUnionArgMap, ttcCtorArgs_map info rest]
  | .logical op a b :: rest => by
      simp [elist, ttcCtorArgs, ttcUnionArgMap, ttcCtorArgs_map info rest]

/-- C6: a `Union` call whose arguments are all `Literal` calls collapses
to `z.enum([...])` over the raw literal values in source order, with no
`z.literal` wrapper remaining; a `Union` call failing the all-literals
test takes the generic path, producing `z.union([...])` over one array
literal whose elements are the per-argument rewrites of the original
arguments in their original left-to-right order (`ttcCtorArgs` is shown
to be an order-preserving element-wise map). -/
theorem claim_C6 (info : ImportInfo) :
    (∀ l : List String,
      ttcExpr info true (.call (idE "Union")
          (elist (l.map fun s => .call (idE "Literal") (elist [.str s]))))
        = .call (.member (idE "z") ⟨"enum", false⟩)
            (elist [.arrayE (elist (l.map Expr.str))]))
    ∧ (∀ args : ExprList, unionArgsAllLiterals args = false →
        ttcExpr info true (.call (idE "Union") args)
          = .call (parseZodExpression ("z.union"))
              (elist [.arrayE (ttcCtorArgs info args)]))
    ∧ (∀ l : List Expr,
        ttcCtorArgs info (elist l) = elist (l.map (ttcUnionArgMap info))) := by
  refine ⟨fun l => ?_, fun args h => ?_, ttcCtorArgs_map info⟩
  · simp only [idE, elist]
    simp [ttcExpr, ttcSkipBuiltin, jsBuiltinNames, typeMapping,
      ttcUnionCall, unionArgsAllLiterals_map l, ttcEnumValues_map info l,
      elist, idE]
  · simp [ttcExpr, idE, ttcSkipBuiltin, jsBuiltinNames, typeMapping,
      ttcUnionCall, h, elist]

/-- C6's witness: the theorem at `Union(Literal("a"), Literal("b"),
Literal("c"))` for the enum half and at `Union(A, B)` for the generic
half. -/
theorem claim_C6_witness :
    ttcExpr emptyInfo true (.call (idE "Union")
        (elist (["a", "b", "c"].map fun s =>
          .call (idE "Literal") (elist [.str s]))))
      = .call (.member (idE "z") ⟨"enum", false⟩)
          (elist [.arrayE (elist (["a", "b", "c"].map Expr.str))])
    ∧ ttcExpr emptyInfo true (.call (idE "Union") (elist [idE "A", idE "B"]))
      = .call (parseZodExpression ("z.union"))
          (elist [.arrayE (ttcCtorArgs emptyInfo (elist [idE "A", idE "B"]))]) :=
  ⟨(claim_C6 emptyInfo).1 ["a", "b", "c"],
   (claim_C6 emptyInfo).2.1 (elist [idE "A", idE "B"]) (by decide)⟩

/-! ## Claim C7: `transformWithConstraintMethod` -/

/-- C7: a `withConstraint` call whose sole argument is an arrow function
with body `tst || "msg"` is renamed to `refine` and its argument list is
destructured into the bare-test arrow and the literal message; a first
argument of the arrow/logical shape that fails the `|| literal` test is
passed through with only the generic in-place traversal (no
destructuring), as is a plain-identifier argument. -/
theorem claim_C7 (info : ImportInfo) (live : Bool) :
    (∀ (o : Expr) (m : Bool) (params : List String) (tst : Expr)
        (msg : String),
      tmcExpr info live (.call (.member o ⟨"withConstraint", m⟩)
          (elist [.arrow params (.logical "||" tst (.str msg))]))
        = .call (.member (tmcExpr info true o) ⟨"refine", m⟩)
            (elist [.arrow params (tmcExpr info false tst), .str msg]))
    ∧ (∀ (o : Expr) (m : Bool) (params : List String) (op : String)
        (l r : Expr) (rest : ExprList),
        ((op = "||") && isLiteralNode r) = false →
        tmcExpr info live (.call (.member o ⟨"withConstraint", m⟩)
            (.cons (.arrow params (.logical op l r)) rest))
          = .call (.member (tmcExpr info true o) ⟨"refine", m⟩)
              (.cons (.arrow params (.logical op (tmcExpr info true l)
                  (tmcExpr info true r)))
                (tmcArgs info rest)))
    ∧ (∀ (o : Expr) (m : Bool) (v : Ident) (rest : ExprList),
        tmcExpr info live (.call (.member o ⟨"withConstraint", m⟩)
            (.cons (.evar v) rest))
          = .call (.member (tmcExpr info true o) ⟨"refine", m⟩)
              (.cons (.evar v) (tmcArgs info rest))) := by
  refine ⟨fun o m params tst msg => ?_, fun o m params op l r rest h => ?_,
    fun o m v rest => ?_⟩
  · simp [tmcExpr, tmcCallM, methodMapping, tmcWithConstraintArgs,
      isLiteralNode, elist]
  · simp [tmcExpr, tmcCallM, methodMapping, tmcWithConstraintArgs, h]
  · simp [tmcExpr, tmcCallM, methodMapping, tmcWithConstraintArgs, tmcArgs]

/-- C7's witness: the theorem at
`X.withConstraint(v => test(v) || "msg")` (destructured), at
`X.withConstraint(v => test(v) && "msg")` (wrong operator — passed
through) and at `X.withConstraint(isValid)` (identifier — passed
through). -/
theorem claim_C7_witness :
    tmcExpr emptyInfo true (.call (.member (idE "X") ⟨"withConstraint", false⟩)
        (elist [.arrow ["v"] (.logical "||"
          (.call (idE "test") (elist [idE "v"])) (.str "msg"))]))
      = .call (.member (tmcExpr emptyInfo true (idE "X")) ⟨"refine", false⟩)
          (elist [.arrow ["v"]
              (tmcExpr emptyInfo false (.call (idE "test") (elist [idE "v"]))),
            .str "msg"])
    ∧ tmcExpr emptyInfo true (.call (.member (idE "X") ⟨"withConstraint", false⟩)
        (.cons (.arrow ["v"] (.logical "&&"
          (.call (idE "test") (elist [idE "v"])) (.str "msg"))) .nil))
      = .call (.member (tmcExpr emptyInfo true (idE "X")) ⟨"refine", false⟩)
          (.cons (.arrow ["v"] (.logical "&&"
              (tmcExpr emptyInfo true (.call (idE "test") (elist [idE "v"])))
              (tmcExpr emptyInfo true (.str "msg"))))
            (tmcArgs emptyInfo .nil))
    ∧ tmcExpr emptyInfo true (.call (.member (idE "X") ⟨"withConstraint", false⟩)
        (.cons (.evar ⟨"isValid", false⟩) .nil))
      = .call (.member (tmcExpr emptyInfo true (idE "X")) ⟨"refine", false⟩)
          (.cons (.evar ⟨"isValid", false⟩) (tmcArgs emptyInfo .nil)) :=
  ⟨(claim_C7 emptyInfo true).1 (idE "X") false ["v"]
      (.call (idE "test") (elist [idE "v"])) "msg",
   (claim_C7 emptyInfo true).2.1 (idE "X") false ["v"] "&&"
      (.call (idE "test") (elist [idE "v"])) (.str "msg") .nil (by decide),
   (claim_C7 emptyInfo true).2.2 (idE "X") false ⟨"isValid", false⟩ .nil⟩

/-! ## Claim C4: `guard` calls -/

/-- The import info produced by `processImports` on
`import { String } from "runtypes"`. -/
def gInfo : ImportInfo := ⟨["String"], none, none⟩

/-- The runtypes import of C4's units. -/
def rtImport4 : Stmt := .importDecl [.named "String" "String"] "runtypes"

/-- Fold the literal info record back to `gInfo` (keeps the step lemmas
applicable after `processImports` is evaluated). -/
theorem gInfo_fold :
    (⟨["String"], none, none⟩ : ImportInfo) = gInfo := rfl

/-- `markJsBuiltins` leaves a guard call on a host-pure receiver with a
host-pure argument alone. -/
theorem guard_step_mark (o a : Expr) (ho : hostPureE o = true)
    (ha : hostPureE a = true) :
    markExpr (.call (.member o ⟨"guard", false⟩) (elist [a]))
      = .call (.member o ⟨"guard", false⟩) (elist [a]) := by
  simp [markExpr, markCallee, markArgs, markProp, jsBuiltinNames, elist,
    mark_fixE o ho, mark_fixArg a ha]

/-- `transformStandaloneTypeIdentifiers` leaves such a guard call
alone. -/
theorem guard_step_standalone (o a : Expr) (ho : hostPureE o = true)
    (ha : hostPureE a = true) :
    standaloneExpr gInfo .generic (.call (.member o ⟨"guard", false⟩) (elist [a]))
      = .call (.member o ⟨"guard", false⟩) (elist [a]) := by
  have hsym : symTame gInfo := Or.inl rfl
  simp [standaloneExpr, standaloneArgs, isFilterCallee, elist,
    standalone_fixE gInfo hsym o ho, standalone_fixE gInfo hsym a ha]

/-- `transformTypeCallExpressions` leaves such a guard call alone. -/
theorem guard_step_ttc (o a : Expr) (ho : hostPureE o = true)
    (ha : hostPureE a = true) :
    ttcExpr gInfo true (.call (.member o ⟨"guard", false⟩) (elist [a]))
      = .call (.member o ⟨"guard", false⟩) (elist [a]) := by
  simp [ttcExpr, ttcArgsLive, elist, ttc_fixE gInfo o ho,
    ttc_fixE gInfo a ha]

/-- `transformMethodCalls` renames `guard` to `safeParse` (the
`methodMapping` entry), in every syntactic position. -/
theorem guard_step_tmc (o a : Expr) (ho : hostPureE o = true)
    (ha : hostPureE a = true) :
    tmcExpr gInfo true (.call (.member o ⟨"guard", false⟩) (elist [a]))
      = .call (.member o ⟨"safeParse", false⟩) (elist [a]) := by
  simp [tmcExpr, tmcCallM, methodMapping, tmcArgs, elist,
    tmc_fixE gInfo o ho, tmc_fixE gInfo a ha]

/-- `transformValidationMethods` no longer matches the call — its filter
admits only `check`, `guard` and `parse`, and the property is already
`safeParse` — so no `.success` accessor is ever appended. -/
theorem guard_step_vm (o a : Expr) (ho : hostPureE o = true)
    (ha : hostPureE a = true) :
    vmExpr gInfo true (.call (.member o ⟨"safeParse", false⟩) (elist [a]))
      = .call (.member o ⟨"safeParse", false⟩) (elist [a]) := by
  simp [vmExpr, vmCall, vmMatched, vmArgs, elist, vm_fixE gInfo o ho,
    vm_fixE gInfo a ha]

/-- C4's counterexample unit: `import { String } from "runtypes";
if (T.guard(data)) { return data; }`. -/
def p4ifc : StmtList := .cons rtImport4
  (.cons (.ifStmt (.call (.member (idE "T") ⟨"guard", false⟩)
      (elist [idE "data"]))
    (slist [.returnStmt (idE "data")]) .nil) .nil)

/-- The output the claim predicts for `p4ifc`: the `if`-test wrapped in a
`.success` accessor. -/
def p4ifcClaimed : StmtList := .cons zodImportStmt
  (.cons (.ifStmt (.member (.call (.member (idE "T") ⟨"safeParse", false⟩)
      (elist [idE "data"])) ⟨"success", false⟩)
    (slist [.returnStmt (idE "data")]) .nil) .nil)

set_option maxHeartbeats 4000000 in
/-- C4, counterexample: even in the test position of an `if` statement,
no `.success` accessor is appended — `if (T.guard(data))` becomes
`if (T.safeParse(data))`, not the claimed `if (T.safeParse(data)
.success)`, because `transformMethodCalls` renames `guard` to
`safeParse` before `transformValidationMethods` (whose filter only
admits `check`/`guard`/`parse`) ever runs. -/
theorem claim_C4_counterexample :
    transformer p4ifc = .cons zodImportStmt
        (.cons (.ifStmt (.call (.member (idE "T") ⟨"safeParse", false⟩)
            (elist [idE "data"]))
          (slist [.returnStmt (idE "data")]) .nil) .nil)
    ∧ transformer p4ifc ≠ p4ifcClaimed := by
  have h1 : transformer p4ifc = .cons zodImportStmt
      (.cons (.ifStmt (.call (.member (idE "T") ⟨"safeParse", false⟩)
          (elist [idE "data"]))
        (slist [.returnStmt (idE "data")]) .nil) .nil) := by
    simp [transformer, transformerCore, processImports, processImportsGo,
      isRuntypesImportPath, stringIncludes, charsInclude, charsPre,
      charsSuffix, charsEqL, collectSpecBuiltins, applySpecAliases, emptyInfo,
      mapStmtExprs, mapStmtExpr, markExpr, markCallee, markArgs, markArg,
      markElems, markOProps, markProp, standaloneExpr, standaloneArgs,
      standaloneElems, standaloneOProps, shouldSkipIdentifier,
      replaceWithZodType, isFilterCallee, zCall, ttcExpr, ttcArgsLive,
      ttcOProps, ttcObjectCall, ttcObjectProps, ttcArrayCall, ttcOptionalCall,
      ttcUnionCall, ttcEnumValues, ttcCtorArgs, ttcTupleCall,
      ttcIntersectCall, ttcSkipBuiltin, unionArgsAllLiterals, typeMapping,
      methodMapping, truthy, parseZodExpression, takeUntilParen,
      jsBuiltinNames, tmcExpr, tmcCallM, tmcWithConstraintArgs, tmcArgs,
      tmcArgsDead, tmcOProps, isLiteralNode, keyOfLit, exprListAllLiterals,
      pickOmitAllLiterals, pickOmitProps, vmExpr, vmCall, vmBareMember,
      vmArgs, vmOProps, vmMatched, transformNamespaceImports, stmtsAnyExpr,
      stmtAnyExpr, nsTrigProg, standaloneTrigE, standaloneTrigElems,
      standaloneTrigOProps, ttcTrigE, ttcTrigArgs, ttcTrigOProps, tmcTrigE,
      tmcTrigArgs, tmcTrigOProps, vmTrigE, vmTrigArgs, vmTrigOProps,
      zodImportStmt, idE, elist, slist, p4ifc, rtImport4]
  refine ⟨h1, ?_⟩
  rw [h1]
  simp [p4ifcClaimed]

/-- C4, amended: a call `o.guard(a)` (host-pure receiver and argument,
named-import form) is rewritten to `o.safeParse(a)` with *no* `.success`
accessor — in the test position of an `if` statement just as in a
variable-declaration initialiser.  The rename happens in
`transformMethodCalls` (pass 5); by the time `transformValidationMethods`
(pass 8) runs, no `guard` property remains, so its `.success`-appending
branch never fires. -/
theorem claim_C4 (o a : Expr) (th el : StmtList)
    (ho : hostPureE o = true) (ha : hostPureE a = true)
    (hth : hostPureStmts th = true) (hel : hostPureStmts el = true) :
    transformer (.cons rtImport4
        (.cons (.ifStmt (.call (.member o ⟨"guard", false⟩) (elist [a])) th el)
          .nil))
      = .cons zodImportStmt
          (.cons (.ifStmt (.call (.member o ⟨"safeParse", false⟩) (elist [a]))
            th el) .nil)
    ∧ transformer (.cons rtImport4
        (.cons (.varDecl "ok" (.call (.member o ⟨"guard", false⟩) (elist [a])))
          .nil))
      = .cons zodImportStmt
          (.cons (.varDecl "ok"
            (.call (.member o ⟨"safeParse", false⟩) (elist [a]))) .nil) := by
  have hsym : symTame gInfo := Or.inl rfl
  have hmth : mapStmtExprs markExpr th = th :=
    mapStmtExprs_fix _ mark_fixE th hth
  have hmel : mapStmtExprs markExpr el = el :=
    mapStmtExprs_fix _ mark_fixE el hel
  have hsth : mapStmtExprs (standaloneExpr gInfo .generic) th = th :=
    mapStmtExprs_fix _
      (fun e he => standalone_fixE gInfo hsym e he .generic) th hth
  have hsel : mapStmtExprs (standaloneExpr gInfo .generic) el = el :=
    mapStmtExprs_fix _
      (fun e he => standalone_fixE gInfo hsym e he .generic) el hel
  have htth : mapStmtExprs (ttcExpr gInfo true) th = th :=
    mapStmtExprs_fix _ (fun e he => ttc_fixE gInfo e he true) th hth
  have htel : mapStmtExprs (ttcExpr gInfo true) el = el :=
    mapStmtExprs_fix _ (fun e he => ttc_fixE gInfo e he true) el hel
  have hmcth : mapStmtExprs (tmcExpr gInfo true) th = th :=
    mapStmtExprs_fix _ (fun e he => tmc_fixE gInfo e he true) th hth
  have hmcel : mapStmtExprs (tmcExpr gInfo true) el = el :=
    mapStmtExprs_fix _ (fun e he => tmc_fixE gInfo e he true) el hel
  have hvth : mapStmtExprs (vmExpr gInfo true) th = th :=
    mapStmtExprs_fix _ (fun e he => vm_fixE gInfo e he true) th hth
  have hvel : mapStmtExprs (vmExpr gInfo true) el = el :=
    mapStmtExprs_fix _ (fun e he => vm_fixE gInfo e he true) el hel
  constructor
  · simp [transformer, transformerCore, processImports, processImportsGo,
      rtImport4, isRuntypesImportPath, stringIncludes, charsInclude,
      charsPre, charsSuffix, charsEqL, collectSpecBuiltins, applySpecAliases,
      emptyInfo, mapStmtExprs, mapStmtExpr, transformNamespaceImports,
      gInfo_fold, hmth, hmel, hsth, hsel, htth, htel, hmcth, hmcel, hvth, hvel,
      guard_step_mark o a ho ha, guard_step_standalone o a ho ha,
      guard_step_ttc o a ho ha, guard_step_tmc o a ho ha,
      guard_step_vm o a ho ha]
  · simp [transformer, transformerCore, processImports, processImportsGo,
      rtImport4, isRuntypesImportPath, stringIncludes, charsInclude,
      charsPre, charsSuffix, charsEqL, collectSpecBuiltins, applySpecAliases,
      emptyInfo, mapStmtExprs, mapStmtExpr, transformNamespaceImports,
      gInfo_fold, guard_step_mark o a ho ha, guard_step_standalone o a ho ha,
      guard_step_ttc o a ho ha, guard_step_tmc o a ho ha,
      guard_step_vm o a ho ha]

/-- C4's witness: the amended theorem at `if (T.guard(data)) { return
data; }` and `const ok = T.guard(data);`. -/
theorem claim_C4_witness :
    transformer (.cons rtImport4
        (.cons (.ifStmt (.call (.member (idE "T") ⟨"guard", false⟩)
            (elist [idE "data"]))
          (slist [.returnStmt (idE "data")]) .nil) .nil))
      = .cons zodImportStmt
          (.cons (.ifStmt (.call (.member (idE "T") ⟨"safeParse", false⟩)
              (elist [idE "data"]))
            (slist [.returnStmt (idE "data")]) .nil) .nil)
    ∧ transformer (.cons rtImport4
        (.cons (.varDecl "ok" (.call (.member (idE "T") ⟨"guard", false⟩)
          (elist [idE "data"]))) .nil))
      = .cons zodImportStmt
          (.cons (.varDecl "ok"
            (.call (.member (idE "T") ⟨"safeParse", false⟩)
              (elist [idE "data"]))) .nil) :=
  claim_C4 (idE "T") (idE "data") (slist [.returnStmt (idE "data")]) .nil
    (by simp [idE, hostPureE, typeMapping])
    (by simp [idE, hostPureE, typeMapping])
    (by simp [slist, hostPureStmts, hostPureStmt, hostPureE, idE, typeMapping])
    (by simp [hostPureStmts])

/-! ## Claim C1: builtin safety -/

/-- The expression pipeline of the transformer, in source order: the
five passes that visit expressions (with no namespace alias recorded,
`transformNamespaceImports` returns immediately, and `processImports` and
`addZodImport` only touch import declarations, never expressions). -/
def exprPipeline (info : ImportInfo) (e : Expr) : Expr :=
  vmExpr info true (tmcExpr info true (ttcExpr info true
    (standaloneExpr info .generic (markExpr e))))

/-- Scenario C's input unit: `import { String } from "runtypes";
const result = items.filter(Boolean);` (`Boolean` never imported from
the source library). -/
def pC : StmtList := slist [.importDecl [.named "String" "String"] "runtypes",
  .varDecl "result" (.call (.member (idE "items") ⟨"filter", false⟩)
    (elist [idE "Boolean"]))]

/-- C1: builtin safety.  The mark flag on identifiers models the
source's invisible `__jsBuiltin` tag (it does not appear in serialized
output), so "unchanged" means equal up to that flag.  For any import
info with no namespace alias and a tame symbol alias:
(a) a call of a builtin-named identifier with at least one host-pure
argument survives all expression passes with callee name and arguments
intact; (b) a builtin-named identifier passed as the argument of a call
of any unmapped method (e.g. `items.filter(Boolean)`) survives, the call
around it intact; (c) a builtin-named property access on a host-pure
object survives; and (d) end-to-end scenario C: the whole unit
`import { String } from "runtypes"; const result =
items.filter(Boolean);` maps to the same unit with only the runtypes
module import replaced by the zod import. -/
theorem claim_C1 (info : ImportInfo) (hns : info.namespaceAlias = none)
    (hsym : symTame info) :
    (∀ (b : String) (mk : Bool) (args : ExprList),
      jsBuiltinNames.contains b = true → ¬(args = .nil) →
      hostPureL args = true →
      exprPipeline info (.call (.evar ⟨b, mk⟩) args)
        = .call (.evar ⟨b, true⟩) args)
    ∧ (∀ (b : String) (mk fm : Bool) (recv : Expr) (f : String),
        jsBuiltinNames.contains b = true →
        jsBuiltinNames.contains f = false → methodMapping f = none →
        hostPureE recv = true →
        exprPipeline info
            (.call (.member recv ⟨f, fm⟩) (.cons (.evar ⟨b, mk⟩) .nil))
          = .call (.member recv ⟨f, fm⟩) (.cons (.evar ⟨b, true⟩) .nil))
    ∧ (∀ (b : String) (mk : Bool) (o : Expr),
        jsBuiltinNames.contains b = true → hostPureE o = true →
        exprPipeline info (.member o ⟨b, mk⟩) = .member o ⟨b, true⟩)
    ∧ transformer pC
      = slist [zodImportStmt,
          .varDecl "result" (.call (.member (idE "items") ⟨"filter", false⟩)
            (elist [.evar ⟨"Boolean", true⟩]))] := by
  refine ⟨fun b mk args hb hnil hargs => ?_, ?_, fun b mk o hb ho => ?_, ?_⟩
  · have hb' : b ∈ jsBuiltinNames := by simpa using hb
    have h1 : markExpr (.call (.evar ⟨b, mk⟩) args)
        = .call (.evar ⟨b, true⟩) args := by
      simp [markExpr, markCallee, hb', mark_fixArgs args hargs]
    have h2 : standaloneExpr info .generic (.call (.evar ⟨b, true⟩) args)
        = .call (.evar ⟨b, true⟩) args := by
      simp [standaloneExpr, shouldSkipIdentifier, isFilterCallee,
        standalone_fixL info hsym false args hargs]
    have h3 : ttcExpr info true (.call (.evar ⟨b, true⟩) args)
        = .call (.evar ⟨b, true⟩) args := by
      simp [ttcExpr, ttcSkipBuiltin, hb', ttc_fixL info args hargs]
    have h4 : tmcExpr info true (.call (.evar ⟨b, true⟩) args)
        = .call (.evar ⟨b, true⟩) args := by
      simp [tmcExpr, tmc_fixL info args hargs]
    have h5 : vmExpr info true (.call (.evar ⟨b, true⟩) args)
        = .call (.evar ⟨b, true⟩) args := by
      simp [vmExpr, vm_fixL info args hargs]
    simp [exprPipeline, h1, h2, h3, h4, h5]
  · intro b mk fm recv f hb hf hfm hrecv
    have hargs1 : hostPureL (ExprList.nil) = true := by simp [hostPureL]
    have hb' : b ∈ jsBuiltinNames := by simpa using hb
    have hf' : f ∉ jsBuiltinNames := by simpa using hf
    have h1 : markExpr (.call (.member recv ⟨f, fm⟩)
          (.cons (.evar ⟨b, mk⟩) .nil))
        = .call (.member recv ⟨f, fm⟩) (.cons (.evar ⟨b, true⟩) .nil) := by
      simp [markExpr, markCallee, markArgs, markArg, markProp, hb', hf',
        mark_fixE recv hrecv]
    have h2 : standaloneExpr info .generic (.call (.member recv ⟨f, fm⟩)
          (.cons (.evar ⟨b, true⟩) .nil))
        = .call (.member recv ⟨f, fm⟩) (.cons (.evar ⟨b, true⟩) .nil) := by
      simp [standaloneExpr, standaloneArgs, shouldSkipIdentifier,
        standalone_fixE info hsym recv hrecv]
    have h3 : ttcExpr info true (.call (.member recv ⟨f, fm⟩)
          (.cons (.evar ⟨b, true⟩) .nil))
        = .call (.member recv ⟨f, fm⟩) (.cons (.evar ⟨b, true⟩) .nil) := by
      simp [ttcExpr, ttcArgsLive, ttc_fixE info recv hrecv]
    have h4 : tmcExpr info true (.call (.member recv ⟨f, fm⟩)
          (.cons (.evar ⟨b, true⟩) .nil))
        = .call (.member recv ⟨f, fm⟩) (.cons (.evar ⟨b, true⟩) .nil) := by
      simp [tmcExpr, tmcCallM, hfm, tmcArgs, tmc_fixE info recv hrecv]
    have h5 : vmExpr info true (.call (.member recv ⟨f, fm⟩)
          (.cons (.evar ⟨b, true⟩) .nil))
        = .call (.member recv ⟨f, fm⟩) (.cons (.evar ⟨b, true⟩) .nil) := by
      have hm : vmMatched info recv ⟨f, fm⟩ = false := by
        have hvf : (["check", "guard", "parse"] : List String).contains f
            = false := by
          by_contra hc
          have hc2 : (["check", "guard", "parse"] : List String).contains f
              = true := by
            revert hc
            cases (["check", "guard", "parse"] : List String).contains f <;>
              simp
          have := validation_isSome (n := f) hc2
          simp [hfm] at this
        have hvf2 : ¬(f = "check" ∨ f = "guard" ∨ f = "parse") := by
          simpa using hvf
        simp [vmMatched, hvf2]
      simp [vmExpr, vmCall, vmArgs, hm, vm_fixE info recv hrecv]
    simp [exprPipeline, h1, h2, h3, h4, h5]
  · have hb' : b ∈ jsBuiltinNames := by simpa using hb
    have h1 : markExpr (.member o ⟨b, mk⟩) = .member o ⟨b, true⟩ := by
      simp [markExpr, markProp, hb', mark_fixE o ho]
    have h2 : standaloneExpr info .generic (.member o ⟨b, true⟩)
        = .member o ⟨b, true⟩ := by
      simp [standaloneExpr, standalone_fixE info hsym o ho]
    have h3 : ttcExpr info true (.member o ⟨b, true⟩)
        = .member o ⟨b, true⟩ := by
      simp [ttcExpr, ttc_fixE info o ho]
    have h4 : tmcExpr info true (.member o ⟨b, true⟩)
        = .member o ⟨b, true⟩ := by
      simp [tmcExpr, tmc_fixE info o ho]
    have h5 : vmExpr info true (.member o ⟨b, true⟩)
        = .member o ⟨b, true⟩ := by
      have hm : vmMatched info o ⟨b, true⟩ = false := by
        simp [jsBuiltinNames] at hb'
        rcases hb' with rfl | rfl | rfl | rfl <;> simp [vmMatched]
      simp [vmExpr, vmBareMember, hm, vm_fixE info o ho]
    simp [exprPipeline, h1, h2, h3, h4, h5]
  · simp [transformer, transformerCore, processImports, processImportsGo,
    isRuntypesImportPath, stringIncludes, charsInclude, charsPre, charsSuffix,
    charsEqL, collectSpecBuiltins, applySpecAliases, emptyInfo, mapStmtExprs,
    mapStmtExpr, markExpr, markCallee, markArgs, markArg, markElems,
    markOProps, markProp, standaloneExpr, standaloneArgs, standaloneElems,
    standaloneOProps, shouldSkipIdentifier, replaceWithZodType, isFilterCallee,
    zCall, ttcExpr, ttcArgsLive, ttcOProps, ttcObjectCall, ttcObjectProps,
    ttcArrayCall, ttcOptionalCall, ttcUnionCall, ttcEnumValues, ttcCtorArgs,
    ttcTupleCall, ttcIntersectCall, ttcSkipBuiltin, unionArgsAllLiterals,
    typeMapping, methodMapping, truthy, parseZodExpression, takeUntilParen,
    jsBuiltinNames, tmcExpr, tmcCallM, tmcWithConstraintArgs, tmcArgs,
    tmcArgsDead, tmcOProps, isLiteralNode, keyOfLit, exprListAllLiterals,
    pickOmitAllLiterals, pickOmitProps, vmExpr, vmCall, vmBareMember, vmArgs,
    vmOProps, vmMatched, transformNamespaceImports, stmtsAnyExpr,
    stmtAnyExpr, nsTrigProg, standaloneTrigE, standaloneTrigElems,
    standaloneTrigOProps, ttcTrigE, ttcTrigArgs, ttcTrigOProps, tmcTrigE,
    tmcTrigArgs, tmcTrigOProps, vmTrigE, vmTrigArgs, vmTrigOProps,
    zodImportStmt, idE, elist, slist, pC]

/-- C1's witness: the theorem's three general clauses at `Number("42")`,
`items.filter(Boolean)` and `win.String`, with the `emptyInfo` session
state. -/
theorem claim_C1_witness :
    exprPipeline emptyInfo (.call (.evar ⟨"Number", false⟩)
        (.cons (.str "42") .nil))
      = .call (.evar ⟨"Number", true⟩) (.cons (.str "42") .nil)
    ∧ exprPipeline emptyInfo
        (.call (.member (idE "items") ⟨"filter", false⟩)
          (.cons (.evar ⟨"Boolean", false⟩) .nil))
      = .call (.member (idE "items") ⟨"filter", false⟩)
          (.cons (.evar ⟨"Boolean", true⟩) .nil)
    ∧ exprPipeline emptyInfo (.member (idE "win") ⟨"String", false⟩)
      = .member (idE "win") ⟨"String", true⟩ :=
  ⟨(claim_C1 emptyInfo rfl (Or.inl rfl)).1 "Number" false
      (.cons (.str "42") .nil) (by decide) (by decide)
      (by simp [hostPureL, hostPureE]),
   (claim_C1 emptyInfo rfl (Or.inl rfl)).2.1 "Boolean" false false
      (idE "items") "filter" (by decide) (by decide) (by decide)
      (by simp [idE, hostPureE, typeMapping]),
   (claim_C1 emptyInfo rfl (Or.inl rfl)).2.2.1 "String" false (idE "win")
      (by decide) (by simp [idE, hostPureE, typeMapping])⟩

end Runzod
